import Mathlib

/-!
Verification development for the account/session pool and token-lifecycle
manager of the deepseek-free-api_rs repository.

The Rust sources are shallowly embedded: hash maps become association
lists (key-unique by construction), u64 timestamps become Nat with the
current clock passed explicitly, f64 load scores become exact rationals,
tokio capacity-1 semaphores become an explicit available-permit counter,
and every fallible operation returns an Except value.  Randomness
(UUIDs) and the clock are explicit parameters.
-/

set_option maxRecDepth 4096

/-- Association-list lookup: first entry whose key matches, as the Rust
HashMap get observes it on the key-unique lists our operations build. -/
def alLookup {α : Type} (k : String) : List (String × α) → Option α
  | [] => none
  | p :: ps => if p.1 = k then some p.2 else alLookup k ps

/-- Association-list removal of every binding of a key (Rust HashMap
remove). -/
def alErase {α : Type} (k : String) : List (String × α) → List (String × α)
  | [] => []
  | p :: ps => if p.1 = k then alErase k ps else p :: alErase k ps

/-- Association-list insert with HashMap semantics: the new binding
replaces any previous binding of the key. -/
def alInsert {α : Type} (k : String) (v : α) (l : List (String × α)) : List (String × α) :=
  (k, v) :: alErase k l

/-- Association-list in-place update of the value at a key (Rust get_mut
followed by field mutation); entries with other keys are untouched. -/
def alUpdate {α : Type} (k : String) (f : α → α) (l : List (String × α)) : List (String × α) :=
  l.map (fun p => if p.1 = k then (p.1, f p.2) else p)

/-- Keys bound in an association list. -/
def alKeys {α : Type} (l : List (String × α)) : List String := l.map Prod.fst

/-- Error type of the session-pool crate (src/src/error.rs, the variants
the session pool constructs). -/
inductive AppError : Type
  | ServiceUnavailable (msg : String)
  | NotFound (msg : String)
  | Internal (msg : String)
deriving DecidableEq, Repr

/-- Session lifecycle states (src/src/services/session_pool.rs, enum
SessionState). -/
inductive SessionState : Type
  | Idle
  | Active
  | Reserved
  | Expired
deriving DecidableEq, Repr

/-- One DeepSeek session (src/src/services/session_pool.rs, struct
DeepSeekSession). -/
structure DeepSeekSession where
  session_id : String
  conversation_id : Option String
  account_email : String
  user_token : String
  state : SessionState
  last_used : Nat
  created_at : Nat
  messages_count : Nat
  api_key : String
deriving DecidableEq, Repr

/-- Per-account pool (src/src/services/session_pool.rs, struct
AccountSessionPool).  The tokio Semaphore of capacity 1 is embedded as
its number of available permits. -/
structure AccountSessionPool where
  account_email : String
  user_token : String
  sessions : List (String × DeepSeekSession)
  active_session : Option String
  last_activity : Nat
  permits : Nat
deriving DecidableEq, Repr

namespace AccountSessionPool

/-- Constructor AccountSessionPool::new: empty session map, no active
session, one semaphore permit; last_activity is the current clock. -/
def new (account_email user_token : String) (now : Nat) : AccountSessionPool :=
  { account_email := account_email
    user_token := user_token
    sessions := []
    active_session := none
    last_activity := now
    permits := 1 }

/-- Method create_session: build a Reserved session under the supplied
or freshly generated conversation id, insert it and touch last_activity.
Returns the conversation id together with the updated pool.  The fresh
UUIDs and the clock are explicit arguments. -/
def create_session (self : AccountSessionPool) (conversation_id : Option String)
    (api_key : String) (now : Nat) (fresh_session_id fresh_conv_id : String) :
    String × AccountSessionPool :=
  let conv_id := conversation_id.getD fresh_conv_id
  let session : DeepSeekSession :=
    { session_id := fresh_session_id
      conversation_id := some conv_id
      account_email := self.account_email
      user_token := self.user_token
      state := SessionState.Reserved
      last_used := now
      created_at := now
      messages_count := 0
      api_key := api_key }
  (conv_id,
   { self with
      sessions := alInsert conv_id session self.sessions
      last_activity := now })

/-- Method get_or_create_session: reuse an existing non-Expired session
(refreshing its last_used), otherwise create a new one.  The Rust method
returns AppResult but never errors, so the embedding returns the pair
directly. -/
def get_or_create_session (self : AccountSessionPool) (conversation_id : Option String)
    (api_key : String) (now : Nat) (fresh_session_id fresh_conv_id : String) :
    String × AccountSessionPool :=
  match conversation_id with
  | some conv_id =>
    match alLookup conv_id self.sessions with
    | some session =>
      if session.state ≠ SessionState.Expired then
        (conv_id,
         { self with
            sessions := alUpdate conv_id (fun s => { s with last_used := now }) self.sessions })
      else
        self.create_session (some conv_id) api_key now fresh_session_id fresh_conv_id
    | none => self.create_session (some conv_id) api_key now fresh_session_id fresh_conv_id
  | none => self.create_session none api_key now fresh_session_id fresh_conv_id

/-- Method activate_session: fails with NotFound when the conversation
has no session, with ServiceUnavailable when another conversation is
active; otherwise marks the session Active, records it as the active
session and touches last_activity. -/
def activate_session (self : AccountSessionPool) (conversation_id : String) (now : Nat) :
    Except AppError AccountSessionPool :=
  match alLookup conversation_id self.sessions with
  | some _ =>
    match self.active_session with
    | some active_id =>
      if active_id ≠ conversation_id then
        .error (AppError.ServiceUnavailable "Account is busy with another session")
      else
        .ok { self with
                sessions := alUpdate conversation_id
                  (fun s => { s with state := SessionState.Active }) self.sessions
                active_session := some conversation_id
                last_activity := now }
    | none =>
      .ok { self with
              sessions := alUpdate conversation_id
                (fun s => { s with state := SessionState.Active }) self.sessions
              active_session := some conversation_id
              last_activity := now }
  | none => .error (AppError.NotFound "Session not found")

/-- Method release_session: set the session Idle and bump its message
count when it exists, and clear active_session when it named this
conversation.  Total, never fails. -/
def release_session (self : AccountSessionPool) (conversation_id : String) :
    AccountSessionPool :=
  { self with
      sessions := alUpdate conversation_id
        (fun s => { s with state := SessionState.Idle, messages_count := s.messages_count + 1 })
        self.sessions
      active_session :=
        if self.active_session = some conversation_id then none else self.active_session }

/-- Expiry predicate of cleanup_expired_sessions: the Rust code computes
(now - session.last_used) > timeout in u64 arithmetic. -/
def sessionExpired (now timeout : Nat) (s : DeepSeekSession) : Prop :=
  now - s.last_used > timeout

instance (now timeout : Nat) (s : DeepSeekSession) : Decidable (sessionExpired now timeout s) :=
  inferInstanceAs (Decidable (_ > _))

/-- The retain traversal of cleanup_expired_sessions: keep exactly the
sessions that are not expired. -/
def retainLive (now timeout : Nat) :
    List (String × DeepSeekSession) → List (String × DeepSeekSession)
  | [] => []
  | p :: ps =>
    if sessionExpired now timeout p.2 then retainLive now timeout ps
    else p :: retainLive now timeout ps

/-- Method cleanup_expired_sessions: drop every session whose idle time
exceeds the timeout, clearing active_session when the dropped session
was the active one; returns the number of sessions removed together with
the updated pool. -/
def cleanup_expired_sessions (self : AccountSessionPool) (now timeout : Nat) :
    Nat × AccountSessionPool :=
  let kept := retainLive now timeout self.sessions
  let active' :=
    match self.active_session with
    | some active_id =>
      match alLookup active_id self.sessions with
      | some s => if sessionExpired now timeout s then none else some active_id
      | none => some active_id
    | none => none
  (self.sessions.length - kept.length,
   { self with sessions := kept, active_session := active' })

/-- Method is_available: no active session. -/
def is_available (self : AccountSessionPool) : Bool :=
  self.active_session.isNone

/-- Method get_load_score, with the f64 arithmetic carried out exactly
in the rationals: 1000 when busy, plus 0.1 per live session, plus 0.01
per second since last activity. -/
def get_load_score (self : AccountSessionPool) (now : Nat) : ℚ :=
  let base_score : ℚ := if self.is_available then 0 else 1000
  let session_count_penalty : ℚ := (self.sessions.length : ℚ) * (1 / 10)
  let age_penalty : ℚ := ((now - self.last_activity : Nat) : ℚ) * (1 / 100)
  base_score + session_count_penalty + age_penalty

end AccountSessionPool

/-- Invariant of C2: every session in state Active is the one named by
active_session; at most one Active session follows. -/
def ActiveInv (p : AccountSessionPool) : Prop :=
  ∀ conv s, alLookup conv p.sessions = some s → s.state = SessionState.Active →
    p.active_session = some conv

/-- Key uniqueness of the session map, as the Rust HashMap guarantees it
and the association-list operations preserve it. -/
def sessionsNodup (p : AccountSessionPool) : Prop :=
  (alKeys p.sessions).Nodup

/-- Account-pool states reachable from a fresh pool by any sequence of
create_session, get_or_create_session, activate_session,
release_session and cleanup_expired_sessions, with arbitrary clock
readings, ids and arguments. -/
inductive Reachable : AccountSessionPool → Prop
  | init (email tok : String) (now : Nat) :
      Reachable (AccountSessionPool.new email tok now)
  | create (p : AccountSessionPool) (conv? : Option String) (api : String) (now : Nat)
      (sid fc : String) :
      Reachable p → Reachable (p.create_session conv? api now sid fc).2
  | getOrCreate (p : AccountSessionPool) (conv? : Option String) (api : String)
      (now : Nat) (sid fc : String) :
      Reachable p → Reachable (p.get_or_create_session conv? api now sid fc).2
  | activate (p p' : AccountSessionPool) (conv : String) (now : Nat) :
      Reachable p → p.activate_session conv now = .ok p' → Reachable p'
  | rel (p : AccountSessionPool) (conv : String) :
      Reachable p → Reachable (p.release_session conv)
  | cleanup (p : AccountSessionPool) (now timeout : Nat) :
      Reachable p → Reachable (p.cleanup_expired_sessions now timeout).2

/-- Manager state (src/src/services/session_pool.rs, struct
SessionPoolManager): pools maps api_key to a map from account email to
its AccountSessionPool, session_mapping maps conversation_id to the
(api_key, account_email) pair serving it. -/
structure SessionPoolManager where
  pools : List (String × List (String × AccountSessionPool))
  session_mapping : List (String × (String × String))
  session_timeout : Nat
deriving DecidableEq, Repr

/-- Outcome of acquire_session in the sequential embedding: blocked
stands for suspending on an unavailable semaphore permit, err and ok
carry the manager state after the call (the permit, taken inside the
call, has been dropped again on return in either case). -/
inductive AcquireOutcome : Type
  | blocked
  | err (e : AppError) (m : SessionPoolManager)
  | ok (conv_id : String) (session : DeepSeekSession) (m : SessionPoolManager)
deriving DecidableEq, Repr

/-- Manager state carried by an acquire outcome, when the call returned
at all. -/
def AcquireOutcome.stateOf : AcquireOutcome → Option SessionPoolManager
  | .blocked => none
  | .err _ m => some m
  | .ok _ _ m => some m

/-- Conversation id and session returned by a successful acquire. -/
def AcquireOutcome.okConvSession : AcquireOutcome → Option (String × DeepSeekSession)
  | .ok c s _ => some (c, s)
  | _ => none

/-- Available permits of the capacity-1 semaphore of the account stored
at (api_key, email), as a lookup observation on the manager state. -/
def permitAt (m : SessionPoolManager) (api_key email : String) : Option Nat :=
  ((alLookup api_key m.pools).bind (alLookup email)).map (fun p => p.permits)

/-- Total number of sessions across every account of every api key. -/
def totalSessions (m : SessionPoolManager) : Nat :=
  (m.pools.map (fun ap => (ap.2.map (fun ep => ep.2.sessions.length)).sum)).sum

namespace SessionPoolManager

/-- Constructor SessionPoolManager::new with its fixed 3600 second
session timeout. -/
def new : SessionPoolManager :=
  { pools := [], session_mapping := [], session_timeout := 3600 }

/-- Applies a function to the account pool stored at (api_key, email);
other entries are untouched, missing keys leave the state unchanged
(matching a get_mut chain that finds nothing). -/
def updatePool (m : SessionPoolManager) (api_key email : String)
    (f : AccountSessionPool → AccountSessionPool) : SessionPoolManager :=
  { m with pools := alUpdate api_key (alUpdate email f) m.pools }

/-- Taking the capacity-1 semaphore permit of an account: one available
permit is consumed. -/
def permitDec (m : SessionPoolManager) (api_key email : String) : SessionPoolManager :=
  m.updatePool api_key email (fun p => { p with permits := p.permits - 1 })

/-- Dropping a held semaphore permit of an account: the permit becomes
available again (Rust drops the SemaphorePermit when it goes out of
scope at the end of the call). -/
def permitInc (m : SessionPoolManager) (api_key email : String) : SessionPoolManager :=
  m.updatePool api_key email (fun p => { p with permits := p.permits + 1 })

/-- Method add_account: insert a fresh AccountSessionPool unless the
email is already registered under the api key. -/
def add_account (m : SessionPoolManager) (api_key account_email user_token : String)
    (now : Nat) : SessionPoolManager :=
  let fresh := AccountSessionPool.new account_email user_token now
  match alLookup api_key m.pools with
  | none =>
    let entry := [(account_email, fresh)]
    { m with pools := alInsert api_key entry m.pools }
  | some api_pools =>
    if (alLookup account_email api_pools).isSome then m
    else
      { m with pools := alInsert api_key (alInsert account_email fresh api_pools) m.pools }

/-- Rust Iterator::min_by over the account pools with the load-score
comparator: the fold keeps the earlier element on ties, so the first
account of minimal score wins. -/
def minByLoadScore (l : List (String × AccountSessionPool)) (now : Nat) :
    Option (String × AccountSessionPool) :=
  l.foldl
    (fun acc y =>
      match acc with
      | none => some y
      | some x =>
        if y.2.get_load_score now < x.2.get_load_score now then some y else some x)
    none

/-- Method find_best_available_account: NotFound for an unknown api key
or an empty account map, otherwise the account email of minimal load
score. -/
def find_best_available_account (m : SessionPoolManager) (api_key : String) (now : Nat) :
    Except AppError String :=
  match alLookup api_key m.pools with
  | none => .error (AppError.NotFound "API key not found")
  | some api_pools =>
    if api_pools.isEmpty then
      .error (AppError.NotFound "No accounts available for this API key")
    else
      match minByLoadScore api_pools now with
      | some best => .ok best.1
      | none => .error (AppError.ServiceUnavailable "No suitable account found")

/-- Method reuse_existing_session: fetch the account's semaphore, take
the permit (blocking when none is available), activate the session under
the write lock, read the session back, and drop the permit on every
return path. -/
def reuse_existing_session (m : SessionPoolManager)
    (api_key account_email conversation_id : String) (now : Nat) : AcquireOutcome :=
  match (alLookup api_key m.pools).bind (alLookup account_email) with
  | none => .err (AppError.NotFound "Account not found") m
  | some pool =>
    if pool.permits = 0 then .blocked
    else
      let m1 := m.permitDec api_key account_email
      match alLookup api_key m1.pools with
      | none => .err (AppError.NotFound "API key not found") (m1.permitInc api_key account_email)
      | some api_pools1 =>
        match alLookup account_email api_pools1 with
        | none => .err (AppError.NotFound "Account not found") (m1.permitInc api_key account_email)
        | some pool1 =>
          match pool1.activate_session conversation_id now with
          | .error e => .err e (m1.permitInc api_key account_email)
          | .ok pool2 =>
            let m2 := m1.updatePool api_key account_email (fun _ => pool2)
            match (alLookup api_key m2.pools).bind (alLookup account_email)
                |>.bind (fun p => alLookup conversation_id p.sessions) with
            | none =>
              .err (AppError.NotFound "Session not found") (m2.permitInc api_key account_email)
            | some session =>
              .ok conversation_id session (m2.permitInc api_key account_email)

/-- Steps 2 through 7 of acquire_session, reached when no route reuses
an existing session: select the best account, take its permit, create or
fetch the session and activate it under the write lock, record the
conversation route, read the session back and drop the permit. -/
def acquire_session_fresh (m : SessionPoolManager) (api_key : String)
    (conversation_id : Option String) (now : Nat) (fresh_session_id fresh_conv_id : String) :
    AcquireOutcome :=
  match m.find_best_available_account api_key now with
  | .error e => .err e m
  | .ok best =>
    match (alLookup api_key m.pools).bind (alLookup best) with
    | none => .err (AppError.NotFound "Account not found") m
    | some pool =>
      if pool.permits = 0 then .blocked
      else
        let m1 := m.permitDec api_key best
        match alLookup api_key m1.pools with
        | none => .err (AppError.NotFound "API key not found") (m1.permitInc api_key best)
        | some api_pools1 =>
          match alLookup best api_pools1 with
          | none => .err (AppError.NotFound "Account not found") (m1.permitInc api_key best)
          | some pool1 =>
            let step5 := pool1.get_or_create_session conversation_id api_key now
                fresh_session_id fresh_conv_id
            match step5.2.activate_session step5.1 now with
            | .error e =>
              .err e ((m1.updatePool api_key best (fun _ => step5.2)).permitInc api_key best)
            | .ok pool3 =>
              let m2 := m1.updatePool api_key best (fun _ => pool3)
              let m3 := { m2 with
                session_mapping := alInsert step5.1 (api_key, best) m2.session_mapping }
              match (alLookup api_key m3.pools).bind (alLookup best)
                  |>.bind (fun p => alLookup step5.1 p.sessions) with
              | none => .err (AppError.Internal "Session disappeared") (m3.permitInc api_key best)
              | some session => .ok step5.1 session (m3.permitInc api_key best)

/-- Method acquire_session: when a conversation id is given and routed
under the same api key, reuse that account's session; otherwise run the
fresh-selection path. -/
def acquire_session (m : SessionPoolManager) (api_key : String)
    (conversation_id : Option String) (now : Nat) (fresh_session_id fresh_conv_id : String) :
    AcquireOutcome :=
  match conversation_id with
  | some conv_id =>
    match alLookup conv_id m.session_mapping with
    | some route =>
      if route.1 = api_key then
        m.reuse_existing_session api_key route.2 conv_id now
      else
        m.acquire_session_fresh api_key conversation_id now fresh_session_id fresh_conv_id
    | none => m.acquire_session_fresh api_key conversation_id now fresh_session_id fresh_conv_id
  | none => m.acquire_session_fresh api_key conversation_id now fresh_session_id fresh_conv_id

/-- Method SessionPoolManager::release_session: look up the route and
release in the routed account pool; no route means no mutation at all.
Total, never fails. -/
def release_session (m : SessionPoolManager) (conversation_id : String) : SessionPoolManager :=
  match alLookup conversation_id m.session_mapping with
  | none => m
  | some route =>
    m.updatePool route.1 route.2 (fun p => p.release_session conversation_id)

/-- The retain traversal over the session mapping at the end of
SessionPoolManager::cleanup_expired_sessions: keep exactly the routes
whose conversation still has a session in the routed (already swept)
account pool. -/
def retainRoutes (cleaned : List (String × List (String × AccountSessionPool))) :
    List (String × (String × String)) → List (String × (String × String))
  | [] => []
  | me :: rest =>
    match (alLookup me.2.1 cleaned).bind (alLookup me.2.2) with
    | some pool =>
      if (alLookup me.1 pool.sessions).isSome then me :: retainRoutes cleaned rest
      else retainRoutes cleaned rest
    | none => retainRoutes cleaned rest

/-- Comparison definition for the amended C5: the effect release has
beyond its first application, namely bumping only the routed session's
messages_count (turn count) and touching nothing else. -/
def touchCount (m : SessionPoolManager) (conversation_id : String) : SessionPoolManager :=
  match alLookup conversation_id m.session_mapping with
  | none => m
  | some route =>
    let bump := fun (s : DeepSeekSession) => { s with messages_count := s.messages_count + 1 }
    m.updatePool route.1 route.2 (fun p =>
      { p with sessions := alUpdate conversation_id bump p.sessions })

/-- Method SessionPoolManager::cleanup_expired_sessions: sweep every
account pool with the manager's timeout, then drop every route whose
conversation no longer has a session in its target pool; returns the
total number of sessions removed. -/
def cleanup_expired_sessions (m : SessionPoolManager) (now : Nat) :
    Nat × SessionPoolManager :=
  let cleaned := m.pools.map (fun ap =>
    (ap.1, ap.2.map (fun ep =>
      (ep.1, (ep.2.cleanup_expired_sessions now m.session_timeout).2))))
  let total := (m.pools.map (fun ap =>
    (ap.2.map (fun ep =>
      (ep.2.cleanup_expired_sessions now m.session_timeout).1)).sum)).sum
  let mapping := retainRoutes cleaned m.session_mapping
  (total, { m with pools := cleaned, session_mapping := mapping })

end SessionPoolManager

/-- Error type of the rust-version crate (crate::error::ApiError, the
variants the token manager and client construct). -/
inductive ApiError : Type
  | TokenError (msg : String)
  | DeepSeekApiError (code : Nat) (message : String)
  | InternalError (msg : String)
  | ServiceUnavailable (msg : String)
deriving DecidableEq, Repr

/-- Cached access-token entry (rust-version token_manager.rs, struct
TokenInfo). -/
structure TokenInfo where
  access_token : String
  refresh_token : String
  expire_time : Nat
deriving DecidableEq, Repr

/-- Parsed upstream response of GET /api/v0/users/current
(DeepSeekResponse over UserInfo); biz_data carries the UserInfo token
when the call succeeded. -/
structure DeepSeekUserResponse where
  code : Option Nat
  biz_data : Option String
  msg : Option String
deriving DecidableEq, Repr

/-- Token manager state (rust-version token_manager.rs, struct
TokenManager): the token cache keyed by refresh token, the
per-refresh-token capacity-1 semaphores embedded as their available
permit counts, and the configured access-token TTL. -/
structure TokenManager where
  tokens : List (String × TokenInfo)
  request_semaphores : List (String × Nat)
  access_token_expires : Nat
deriving DecidableEq, Repr

deriving instance DecidableEq for Except

/-- Outcome of acquire_token in the sequential embedding: blocked stands
for suspending on the per-credential semaphore; result carries the
returned value, the manager state after the call, and whether the
external refresh collaborator was invoked. -/
inductive TokenOutcome : Type
  | blocked
  | result (r : Except ApiError String) (tm : TokenManager) (refresh_invoked : Bool)
deriving DecidableEq, Repr

/-- Returned value of a token outcome, when the call returned at all. -/
def TokenOutcome.resultOf : TokenOutcome → Option (Except ApiError String)
  | .blocked => none
  | .result r _ _ => some r

/-- Manager state after a token outcome, when the call returned. -/
def TokenOutcome.stateOf : TokenOutcome → Option TokenManager
  | .blocked => none
  | .result _ tm _ => some tm

/-- Whether the refresh collaborator was invoked, when the call
returned. -/
def TokenOutcome.invokedOf : TokenOutcome → Option Bool
  | .blocked => none
  | .result _ _ b => some b

namespace TokenManager

/-- Method remove_token: evict the cache entry of a refresh token. -/
def remove_token (self : TokenManager) (refresh_tok : String) : TokenManager :=
  { self with tokens := alErase refresh_tok self.tokens }

/-- Method refresh_token, with the network call abstracted into its
parsed response and the clock reading at refresh completion: on biz_data
build the new TokenInfo whose expiry is that clock reading plus the
configured TTL; otherwise surface a DeepSeekApiError (evicting the cache
entry on code 40003) or a TokenError when no code is present. -/
def refresh_tok_op (self : TokenManager) (refresh_tok : String)
    (response : DeepSeekUserResponse) (refresh_now : Nat) :
    Except ApiError TokenInfo × TokenManager :=
  match response.biz_data with
  | some user_token =>
    (.ok { access_token := user_token
           refresh_token := user_token
           expire_time := refresh_now + self.access_token_expires }, self)
  | none =>
    let error_msg := response.msg.getD "Unknown error"
    match response.code with
    | some code =>
      let self1 := if code = 40003 then self.remove_token refresh_tok else self
      (.error (ApiError.DeepSeekApiError code error_msg), self1)
    | none => (.error (ApiError.TokenError error_msg), self)

/-- Slow path of acquire_token, reached when the fast cache read found
no fresh entry: get or create the per-credential semaphore, take its
permit (blocking when unavailable), re-check the cache under the permit,
refresh when still stale, publish the new entry and drop the permit. -/
def acquire_token_slow (self : TokenManager) (refresh_tok : String) (current_time : Nat)
    (response : DeepSeekUserResponse) (refresh_now : Nat) : TokenOutcome :=
  let self0 :=
    match alLookup refresh_tok self.request_semaphores with
    | some _ => self
    | none =>
      { self with request_semaphores := alInsert refresh_tok 1 self.request_semaphores }
  let avail := (alLookup refresh_tok self0.request_semaphores).getD 1
  if avail = 0 then .blocked
  else
    let take := fun (tm : TokenManager) =>
      { tm with request_semaphores := alUpdate refresh_tok (fun n => n - 1) tm.request_semaphores }
    let idrop := fun (tm : TokenManager) =>
      { tm with request_semaphores := alUpdate refresh_tok (fun n => n + 1) tm.request_semaphores }
    let self1 := take self0
    match alLookup refresh_tok self1.tokens with
    | some token_info =>
      if current_time < token_info.expire_time then
        .result (.ok token_info.access_token) (idrop self1) false
      else
        match self1.refresh_tok_op refresh_tok response refresh_now with
        | (.ok token_info, tm) =>
          .result (.ok token_info.access_token)
            (idrop { tm with tokens := alInsert refresh_tok token_info tm.tokens }) true
        | (.error e, tm) => .result (.error e) (idrop tm) true
    | none =>
      match self1.refresh_tok_op refresh_tok response refresh_now with
      | (.ok token_info, tm) =>
        .result (.ok token_info.access_token)
          (idrop { tm with tokens := alInsert refresh_tok token_info tm.tokens }) true
      | (.error e, tm) => .result (.error e) (idrop tm) true

/-- Method acquire_token: fast path returns the cached access token when
the entry is still fresh at the captured clock reading, without touching
the semaphores or invoking the refresh collaborator; otherwise the slow
path runs. -/
def acquire_token (self : TokenManager) (refresh_tok : String) (current_time : Nat)
    (response : DeepSeekUserResponse) (refresh_now : Nat) : TokenOutcome :=
  match alLookup refresh_tok self.tokens with
  | some token_info =>
    if current_time < token_info.expire_time then
      .result (.ok token_info.access_token) self false
    else
      self.acquire_token_slow refresh_tok current_time response refresh_now
  | none => self.acquire_token_slow refresh_tok current_time response refresh_now

/-- The retain traversal of cleanup_semaphores: keep exactly the
semaphore entries with a positive count of available permits. -/
def retainPositive : List (String × Nat) → List (String × Nat)
  | [] => []
  | p :: ps => if p.2 > 0 then p :: retainPositive ps else retainPositive ps

/-- Method cleanup_semaphores: retain exactly the semaphores whose
available_permits is positive. -/
def cleanup_semaphores (self : TokenManager) : TokenManager :=
  { self with request_semaphores := retainPositive self.request_semaphores }

end TokenManager

/-- Retry loop shared by create_completion and create_completion_stream
(rust-version deepseek_client.rs): attempt is the outcome of the k-th
call of the wrapped try operation, budget is the number of retries still
allowed (max_retry_count minus retries already spent).  Returns the
final result together with the list of sleeps performed, each of the
fixed configured delay. -/
def retry_go {α : Type} (attempt : Nat → Except ApiError α) (delay : Nat) :
    Nat → Nat → Except ApiError α × List Nat
  | k, 0 =>
    match attempt k with
    | .ok a => (.ok a, [])
    | .error e => (.error e, [])
  | k, b + 1 =>
    match attempt k with
    | .ok a => (.ok a, [])
    | .error _ =>
      let r := retry_go attempt delay (k + 1) b
      (r.1, delay :: r.2)

/-- Method create_completion (and create_completion_stream, which has
the identical loop): run the try operation with retry_count starting at
0 and the configured max_retry_count as the retry budget, sleeping the
configured retry_delay_ms between attempts. -/
def create_completion {α : Type} (try_op : Nat → Except ApiError α)
    (max_retry_count retry_delay_ms : Nat) : Except ApiError α × List Nat :=
  retry_go try_op retry_delay_ms 0 max_retry_count

/-- Checked u64 subtraction: Rust a - b on u64 panics in debug builds
when b exceeds a; none models that panic. -/
def u64Sub (a b : Nat) : Option Nat :=
  if b ≤ a then some (a - b) else none

/-- Checked variant of the retain traversal of cleanup_expired_sessions:
the closure computes now - last_used for each visited entry in order and
panics at the first underflow. -/
def checkedRetainLive (now timeout : Nat) :
    List (String × DeepSeekSession) → Option (List (String × DeepSeekSession))
  | [] => some []
  | p :: ps =>
    match u64Sub now p.2.last_used with
    | none => none
    | some d =>
      (checkedRetainLive now timeout ps).map
        (fun rest => if d > timeout then rest else p :: rest)

/-- Checked variant of AccountSessionPool.cleanup_expired_sessions: none
exactly when some visited session has last_used beyond the clock. -/
def AccountSessionPool.cleanup_expired_sessions_checked (self : AccountSessionPool)
    (now timeout : Nat) : Option (Nat × AccountSessionPool) :=
  match checkedRetainLive now timeout self.sessions with
  | none => none
  | some _ => some (self.cleanup_expired_sessions now timeout)

/-- Checked variant of get_load_score: none exactly when last_activity
is beyond the clock, making the u64 age subtraction underflow. -/
def AccountSessionPool.get_load_score_checked (self : AccountSessionPool) (now : Nat) :
    Option ℚ :=
  (u64Sub now self.last_activity).map (fun d =>
    (if self.is_available then (0 : ℚ) else 1000) +
      (self.sessions.length : ℚ) * (1 / 10) + (d : ℚ) * (1 / 100))


theorem alLookup_alErase_self {α : Type} (k : String) (l : List (String × α)) :
    alLookup k (alErase k l) = none := by
  induction l with
  | nil => rfl
  | cons p ps ih =>
    by_cases hp : p.1 = k
    · simp [alErase, hp, ih]
    · simp [alErase, alLookup, hp, ih]

theorem alLookup_alErase_ne {α : Type} (k k' : String) (h : k ≠ k') (l : List (String × α)) :
    alLookup k (alErase k' l) = alLookup k l := by
  induction l with
  | nil => rfl
  | cons p ps ih =>
    by_cases hp : p.1 = k'
    · have hk : ¬ p.1 = k := fun hh => h (by rw [← hh, hp])
      have h' : ¬ k' = k := fun hh => h hh.symm
      simp [alErase, alLookup, hp, hk, h', ih]
    · simp [alErase, alLookup, hp, ih]

theorem alLookup_alInsert_self {α : Type} (k : String) (v : α) (l : List (String × α)) :
    alLookup k (alInsert k v l) = some v := by
  simp [alInsert, alLookup]

theorem alLookup_alInsert_ne {α : Type} (k k' : String) (h : k ≠ k') (v : α)
    (l : List (String × α)) : alLookup k (alInsert k' v l) = alLookup k l := by
  have h' : ¬ k' = k := fun hh => h hh.symm
  simp [alInsert, alLookup, h', alLookup_alErase_ne k k' h l]

theorem alLookup_alUpdate_self {α : Type} (k : String) (f : α → α) (l : List (String × α)) :
    alLookup k (alUpdate k f l) = (alLookup k l).map f := by
  induction l with
  | nil => rfl
  | cons p ps ih =>
    by_cases hp : p.1 = k
    · simp [alUpdate, alLookup, hp]
    · simpa [alUpdate, alLookup, hp] using ih

theorem alLookup_alUpdate_ne {α : Type} (k k' : String) (h : k ≠ k') (f : α → α)
    (l : List (String × α)) : alLookup k (alUpdate k' f l) = alLookup k l := by
  induction l with
  | nil => rfl
  | cons p ps ih =>
    have h' : ¬ k' = k := fun hh => h hh.symm
    by_cases hp : p.1 = k'
    · have hk : ¬ p.1 = k := fun hh => h (by rw [← hh, hp])
      simpa [alUpdate, alLookup, hp, hk, h'] using ih
    · by_cases hk : p.1 = k
      · simp [alUpdate, alLookup, hp, hk, h]
      · simpa [alUpdate, alLookup, hp, hk] using ih

/-- C1: the claim says cleanup_semaphores keeps every lock that is held
or awaited and removes only fully idle locks.  The code does the
opposite: retain keeps available_permits > 0, so a capacity-1 semaphore
that is currently held (zero available permits, an in-flight refresh)
is removed while the idle one is kept.  Evaluated at a manager holding
one held lock r1 and one idle lock r2. -/
theorem c1_cleanup_semaphores_removes_held_lock :
    (TokenManager.cleanup_semaphores
      { tokens := []
        request_semaphores := [("r1", 0), ("r2", 1)]
        access_token_expires := 3600 }).request_semaphores = [("r2", 1)] := by
  decide

theorem checkedRetainLive_of_le (now timeout : Nat) (l : List (String × DeepSeekSession))
    (h : ∀ e ∈ l, e.2.last_used ≤ now) :
    checkedRetainLive now timeout l = some (AccountSessionPool.retainLive now timeout l) := by
  induction l with
  | nil => rfl
  | cons p ps ih =>
    have hp : p.2.last_used ≤ now := h p (List.mem_cons_self p ps)
    have hps : ∀ e ∈ ps, e.2.last_used ≤ now := fun e he => h e (List.mem_cons_of_mem p he)
    simp [checkedRetainLive, u64Sub, hp, ih hps, AccountSessionPool.retainLive,
      AccountSessionPool.sessionExpired]

theorem checkedRetainLive_of_bad (now timeout : Nat) (l : List (String × DeepSeekSession))
    (h : ∃ e ∈ l, now < e.2.last_used) :
    checkedRetainLive now timeout l = none := by
  induction l with
  | nil => exact absurd h (by simp)
  | cons p ps ih =>
    by_cases hp : p.2.last_used ≤ now
    · have hps : ∃ e ∈ ps, now < e.2.last_used := by
        rcases h with ⟨e, he, hlt⟩
        rcases List.mem_cons.mp he with rfl | hmem
        · exact absurd hlt (not_lt.mpr hp)
        · exact ⟨e, hmem, hlt⟩
      simp [checkedRetainLive, u64Sub, hp, ih hps]
    · simp [checkedRetainLive, u64Sub, hp]

/-- C10: the expiry sweep and the load score subtract timestamps with
unguarded u64 arithmetic.  Whenever every session's last_used and the
account's last_activity are at or before the clock, the checked
embeddings succeed and agree with the pure ones (total, panic-free);
a timestamp beyond the clock makes the corresponding subtraction
underflow (none). -/
theorem c10_unguarded_time_subtraction :
    (∀ (p : AccountSessionPool) (now timeout : Nat),
      (∀ e ∈ p.sessions, e.2.last_used ≤ now) →
      p.cleanup_expired_sessions_checked now timeout =
        some (p.cleanup_expired_sessions now timeout)) ∧
    (∀ (p : AccountSessionPool) (now : Nat),
      p.last_activity ≤ now →
      p.get_load_score_checked now = some (p.get_load_score now)) ∧
    (∀ (p : AccountSessionPool) (now timeout : Nat),
      (∃ e ∈ p.sessions, now < e.2.last_used) →
      p.cleanup_expired_sessions_checked now timeout = none) ∧
    (∀ (p : AccountSessionPool) (now : Nat),
      now < p.last_activity → p.get_load_score_checked now = none) := by
  refine ⟨?_, ?_, ?_, ?_⟩
  · intro p now timeout h
    simp [AccountSessionPool.cleanup_expired_sessions_checked,
      checkedRetainLive_of_le now timeout p.sessions h]
  · intro p now h
    simp [AccountSessionPool.get_load_score_checked, u64Sub, if_pos h,
      AccountSessionPool.get_load_score]
  · intro p now timeout h
    simp [AccountSessionPool.cleanup_expired_sessions_checked,
      checkedRetainLive_of_bad now timeout p.sessions h]
  · intro p now h
    simp [AccountSessionPool.get_load_score_checked, u64Sub, not_le.mpr h]

/-- C10 witness: the panic-free precondition discharged at a concrete
pool, and the underflow case at a pool whose last_activity is beyond
the clock. -/
theorem c10_unguarded_time_subtraction_witness :
    ((AccountSessionPool.new "a" "t" 5).cleanup_expired_sessions_checked 10 3600 =
      some ((AccountSessionPool.new "a" "t" 5).cleanup_expired_sessions 10 3600)) ∧
    (AccountSessionPool.new "a" "t" 50).get_load_score_checked 10 = none := by
  constructor
  · exact c10_unguarded_time_subtraction.1 (AccountSessionPool.new "a" "t" 5) 10 3600
      (by decide)
  · exact c10_unguarded_time_subtraction.2.2.2 (AccountSessionPool.new "a" "t" 50) 10
      (by decide)

theorem retry_go_all_err {α : Type} (attempt : Nat → Except ApiError α) (delay : Nat) :
    ∀ (budget k : Nat), (∀ i, i ≤ budget → ∀ a, attempt (k + i) ≠ .ok a) →
    retry_go attempt delay k budget = (attempt (k + budget), List.replicate budget delay) := by
  intro budget
  induction budget with
  | zero =>
    intro k h
    cases hA : attempt k with
    | ok a => exact absurd hA (by simpa using h 0 (le_refl 0) a)
    | error e => simp [retry_go, hA]
  | succ b ih =>
    intro k h
    cases hA : attempt k with
    | ok a => exact absurd hA (by simpa using h 0 (Nat.zero_le _) a)
    | error e =>
      have h' : ∀ i, i ≤ b → ∀ a, attempt (k + 1 + i) ≠ .ok a := by
        intro i hi a
        have := h (i + 1) (Nat.succ_le_succ hi) a
        rw [show k + 1 + i = k + (i + 1) by omega]
        exact this
      rw [show k + (b + 1) = k + 1 + b by omega]
      simp [retry_go, hA, ih (k + 1) h', List.replicate_succ]

theorem retry_go_first_ok {α : Type} (attempt : Nat → Except ApiError α) (delay : Nat) :
    ∀ (i k budget : Nat) (a : α), i ≤ budget → attempt (k + i) = .ok a →
    (∀ j, j < i → ∀ b, attempt (k + j) ≠ .ok b) →
    retry_go attempt delay k budget = (.ok a, List.replicate i delay) := by
  intro i
  induction i with
  | zero =>
    intro k budget a _ hok _
    have hok0 : attempt k = .ok a := by simpa using hok
    cases budget <;> simp [retry_go, hok0]
  | succ j ih =>
    intro k budget a hle hok hpre
    obtain ⟨e, hb⟩ : ∃ e, attempt k = .error e := by
      cases hA : attempt k with
      | ok b => exact absurd hA (by simpa using hpre 0 (Nat.succ_pos j) b)
      | error e => exact ⟨e, rfl⟩
    obtain ⟨bud, rfl⟩ : ∃ bud, budget = bud + 1 := ⟨budget - 1, by omega⟩
    have hok' : attempt (k + 1 + j) = .ok a := by
      rw [show k + 1 + j = k + (j + 1) by omega]; exact hok
    have hpre' : ∀ j', j' < j → ∀ b, attempt (k + 1 + j') ≠ .ok b := by
      intro j' hj' b
      rw [show k + 1 + j' = k + (j' + 1) by omega]
      exact hpre (j' + 1) (Nat.succ_lt_succ hj') b
    simp [retry_go, hb, ih (k + 1) bud a (by omega) hok' hpre', List.replicate_succ]

theorem retry_go_sleeps {α : Type} (attempt : Nat → Except ApiError α) (delay : Nat) :
    ∀ (budget k : Nat), (retry_go attempt delay k budget).2.length ≤ budget ∧
      ∀ d ∈ (retry_go attempt delay k budget).2, d = delay := by
  intro budget
  induction budget with
  | zero => intro k; cases hA : attempt k <;> simp [retry_go, hA]
  | succ b ih =>
    intro k
    cases hA : attempt k with
    | ok a => simp [retry_go, hA]
    | error e =>
      have hb := ih (k + 1)
      refine ⟨?_, ?_⟩
      · simpa [retry_go, hA] using Nat.succ_le_succ hb.1
      · intro d hd
        simp only [retry_go, hA] at hd
        rcases List.mem_cons.mp hd with rfl | hmem
        · rfl
        · exact hb.2 d hmem

/-- C9: the retry wrapper of create_completion (and of
create_completion_stream, whose loop is identical) performs at most
max_retry_count sleeps (hence at most max_retry_count + 1 attempts),
each sleep of the fixed configured delay; it returns the first
successful attempt's result as soon as one succeeds, retrying after any
error whatever its kind; and when every attempt up to the budget fails
it returns exactly the final attempt's error. -/
theorem c9_create_completion_retry {α : Type} (try_op : Nat → Except ApiError α)
    (max_retry_count retry_delay_ms : Nat) :
    ((create_completion try_op max_retry_count retry_delay_ms).2.length ≤ max_retry_count ∧
      ∀ d ∈ (create_completion try_op max_retry_count retry_delay_ms).2,
        d = retry_delay_ms) ∧
    (∀ i a, i ≤ max_retry_count → try_op i = .ok a →
      (∀ j, j < i → ∀ b, try_op j ≠ .ok b) →
      create_completion try_op max_retry_count retry_delay_ms =
        (.ok a, List.replicate i retry_delay_ms)) ∧
    ((∀ i, i ≤ max_retry_count → ∀ a, try_op i ≠ .ok a) →
      create_completion try_op max_retry_count retry_delay_ms =
        (try_op max_retry_count, List.replicate max_retry_count retry_delay_ms)) := by
  refine ⟨retry_go_sleeps try_op retry_delay_ms max_retry_count 0, ?_, ?_⟩
  · intro i a hle hok hpre
    have := retry_go_first_ok try_op retry_delay_ms i 0 max_retry_count a hle
      (by simpa using hok) (by simpa using hpre)
    simpa [create_completion] using this
  · intro h
    have := retry_go_all_err try_op retry_delay_ms max_retry_count 0 (by simpa using h)
    simpa [create_completion] using this

/-- C9 witness: a run that succeeds on the second attempt after one
fixed-delay sleep, and a run whose attempts all fail and which surfaces
the final attempt's error. -/
theorem c9_create_completion_retry_witness :
    (create_completion
        (fun k => if k = 1 then Except.ok "done" else .error (ApiError.TokenError "boom"))
        2 7 = (.ok "done", [7])) ∧
    (create_completion
        (fun k => (.error (ApiError.TokenError (toString k)) : Except ApiError String))
        2 7 = (.error (ApiError.TokenError "2"), [7, 7])) := by
  constructor
  · have := (c9_create_completion_retry
      (fun k => if k = 1 then Except.ok "done" else .error (ApiError.TokenError "boom"))
      2 7).2.1 1 "done" (by omega) (by decide)
      (by intro j hj b; interval_cases j; simp)
    simpa using this
  · have := (c9_create_completion_retry
      (fun k => (.error (ApiError.TokenError (toString k)) : Except ApiError String))
      2 7).2.2 (by intro i hi a; simp)
    simpa using this

theorem acquire_token_slow_refreshes (tm : TokenManager) (rt : String) (now : Nat)
    (resp : DeepSeekUserResponse) (rnow : Nat) (tok : String)
    (hstale : ∀ ti, alLookup rt tm.tokens = some ti → ti.expire_time ≤ now)
    (hbiz : resp.biz_data = some tok)
    (hsem : (alLookup rt tm.request_semaphores).getD 1 ≠ 0) :
    ((tm.acquire_token_slow rt now resp rnow).resultOf = some (.ok tok)) ∧
    ((tm.acquire_token_slow rt now resp rnow).invokedOf = some true) ∧
    ((tm.acquire_token_slow rt now resp rnow).stateOf.map
        (fun tm' => alLookup rt tm'.tokens) =
      some (some { access_token := tok, refresh_token := tok,
                   expire_time := rnow + tm.access_token_expires })) := by
  cases hsem0 : alLookup rt tm.request_semaphores with
  | none =>
    cases hl : alLookup rt tm.tokens with
    | none =>
      simp [TokenManager.acquire_token_slow, hsem0, hl, TokenManager.refresh_tok_op, hbiz,
        TokenOutcome.resultOf, TokenOutcome.invokedOf, TokenOutcome.stateOf,
        alLookup_alInsert_self]
    | some ti =>
      have hnf : ¬ now < ti.expire_time := not_lt.mpr (hstale ti hl)
      simp [TokenManager.acquire_token_slow, hsem0, hl, hnf, TokenManager.refresh_tok_op,
        hbiz, TokenOutcome.resultOf, TokenOutcome.invokedOf, TokenOutcome.stateOf,
        alLookup_alInsert_self]
  | some n =>
    have hn : ¬ n = 0 := by simpa [hsem0] using hsem
    cases hl : alLookup rt tm.tokens with
    | none =>
      simp [TokenManager.acquire_token_slow, hsem0, hl, hn, TokenManager.refresh_tok_op,
        hbiz, TokenOutcome.resultOf, TokenOutcome.invokedOf, TokenOutcome.stateOf,
        alLookup_alInsert_self]
    | some ti =>
      have hnf : ¬ now < ti.expire_time := not_lt.mpr (hstale ti hl)
      simp [TokenManager.acquire_token_slow, hsem0, hl, hn, hnf,
        TokenManager.refresh_tok_op, hbiz, TokenOutcome.resultOf, TokenOutcome.invokedOf,
        TokenOutcome.stateOf, alLookup_alInsert_self]

/-- C7: when a cache entry exists for the refresh credential and the
captured clock is strictly before its expiry, acquire_token returns that
entry's access token without invoking the external refresh collaborator
and without touching any state; otherwise (entry stale or absent, and
the per-credential lock available) it invokes refresh and, on upstream
success, the returned token is the fresh one and the cache entry is
replaced by one whose expiry is the refresh-completion time plus the
configured TTL. -/
theorem c7_acquire_token_cache :
    (∀ (tm : TokenManager) (rt : String) (now : Nat) (resp : DeepSeekUserResponse)
        (rnow : Nat) (ti : TokenInfo),
      alLookup rt tm.tokens = some ti → now < ti.expire_time →
      tm.acquire_token rt now resp rnow = .result (.ok ti.access_token) tm false) ∧
    (∀ (tm : TokenManager) (rt : String) (now : Nat) (resp : DeepSeekUserResponse)
        (rnow : Nat) (tok : String),
      (∀ ti, alLookup rt tm.tokens = some ti → ti.expire_time ≤ now) →
      resp.biz_data = some tok →
      (alLookup rt tm.request_semaphores).getD 1 ≠ 0 →
      ((tm.acquire_token rt now resp rnow).resultOf = some (.ok tok)) ∧
      ((tm.acquire_token rt now resp rnow).invokedOf = some true) ∧
      ((tm.acquire_token rt now resp rnow).stateOf.map
          (fun tm' => alLookup rt tm'.tokens) =
        some (some { access_token := tok, refresh_token := tok,
                     expire_time := rnow + tm.access_token_expires }))) := by
  constructor
  · intro tm rt now resp rnow ti hl hfresh
    simp [TokenManager.acquire_token, hl, hfresh]
  · intro tm rt now resp rnow tok hstale hbiz hsem
    have h := acquire_token_slow_refreshes tm rt now resp rnow tok hstale hbiz hsem
    cases hl : alLookup rt tm.tokens with
    | none => simpa [TokenManager.acquire_token, hl] using h
    | some ti =>
      have hnf : ¬ now < ti.expire_time := not_lt.mpr (hstale ti hl)
      simpa [TokenManager.acquire_token, hl, hnf] using h

/-- C7 witness: the fresh-entry fast path at a concrete cache, and the
cold-cache refresh path at a concrete manager and upstream response. -/
theorem c7_acquire_token_cache_witness :
    ({ tokens := [("r", { access_token := "a0", refresh_token := "r", expire_time := 100 })]
       request_semaphores := []
       access_token_expires := 50 : TokenManager }.acquire_token "r" 10
        { code := none, biz_data := none, msg := none } 20 =
      .result (.ok "a0")
        { tokens := [("r", { access_token := "a0", refresh_token := "r", expire_time := 100 })]
          request_semaphores := []
          access_token_expires := 50 } false) ∧
    (({ tokens := [], request_semaphores := [], access_token_expires := 50 : TokenManager
        }.acquire_token "r" 10
          { code := none, biz_data := some "newtok", msg := none } 20).stateOf.map
        (fun tm' => alLookup "r" tm'.tokens) =
      some (some { access_token := "newtok", refresh_token := "newtok",
                   expire_time := 70 })) := by
  constructor
  · exact c7_acquire_token_cache.1
      { tokens := [("r", { access_token := "a0", refresh_token := "r", expire_time := 100 })]
        request_semaphores := []
        access_token_expires := 50 } "r" 10
      { code := none, biz_data := none, msg := none } 20
      { access_token := "a0", refresh_token := "r", expire_time := 100 }
      (by decide) (by decide)
  · exact (c7_acquire_token_cache.2
      { tokens := [], request_semaphores := [], access_token_expires := 50 } "r" 10
      { code := none, biz_data := some "newtok", msg := none } 20 "newtok"
      (by intro ti h; simp [alLookup] at h) (by decide) (by decide)).2.2

theorem alUpdate_alUpdate {α : Type} (k : String) (f g : α → α) (l : List (String × α)) :
    alUpdate k g (alUpdate k f l) = alUpdate k (fun x => g (f x)) l := by
  induction l with
  | nil => rfl
  | cons p ps ih =>
    by_cases hp : p.1 = k
    · simpa [alUpdate, hp] using ih
    · simpa [alUpdate, hp] using ih

theorem alUpdate_congr {α : Type} (k : String) (f g : α → α) (l : List (String × α))
    (h : ∀ x, f x = g x) : alUpdate k f l = alUpdate k g l := by
  have hfg : f = g := funext h
  rw [hfg]

theorem release_release_pool (p : AccountSessionPool) (c : String) :
    (p.release_session c).release_session c =
      { p.release_session c with
          sessions := alUpdate c (fun s => { s with messages_count := s.messages_count + 1 })
            (p.release_session c).sessions } := by
  by_cases h : p.active_session = some c
  · simp [AccountSessionPool.release_session, h, alUpdate_alUpdate]
  · simp [AccountSessionPool.release_session, h, alUpdate_alUpdate]

/-- C5 counterexample: releasing the same conversation twice is not the
same state as releasing it once — the second release bumps the routed
session's messages_count again.  Evaluated at a one-account manager with
an active routed session c. -/
theorem c5_release_not_idempotent_counterexample :
    ((SessionPoolManager.mk
        [("k", [("e", AccountSessionPool.mk "e" "t"
          [("c", DeepSeekSession.mk "s" (some "c") "e" "t" SessionState.Active 0 0 0 "k")]
          (some "c") 0 0)])]
        [("c", ("k", "e"))] 3600).release_session "c").release_session "c"
    ≠ (SessionPoolManager.mk
        [("k", [("e", AccountSessionPool.mk "e" "t"
          [("c", DeepSeekSession.mk "s" (some "c") "e" "t" SessionState.Active 0 0 0 "k")]
          (some "c") 0 0)])]
        [("c", ("k", "e"))] 3600).release_session "c" := by
  decide

/-- C5 amended: releaseSession never fails, and releasing a conversation
with no route entry leaves the state unchanged; it is however not
idempotent in the turn count — a second release equals the first-release
state with only the routed session's messages_count bumped once more
(state and active_session handling are idempotent). -/
theorem c5_release_session_noop_and_count :
    (∀ (m : SessionPoolManager) (c : String),
      alLookup c m.session_mapping = none → m.release_session c = m) ∧
    (∀ (m : SessionPoolManager) (c : String),
      (m.release_session c).release_session c = (m.release_session c).touchCount c) := by
  constructor
  · intro m c h
    simp [SessionPoolManager.release_session, h]
  · intro m c
    cases hr : alLookup c m.session_mapping with
    | none =>
      simp [SessionPoolManager.release_session, SessionPoolManager.touchCount, hr]
    | some route =>
      simp only [SessionPoolManager.release_session, SessionPoolManager.touchCount,
        SessionPoolManager.updatePool, hr]
      simp only [SessionPoolManager.mk.injEq, and_true, true_and]
      rw [alUpdate_alUpdate, alUpdate_alUpdate]
      apply alUpdate_congr
      intro ap
      rw [alUpdate_alUpdate, alUpdate_alUpdate]
      apply alUpdate_congr
      intro p
      exact release_release_pool p c

/-- C5 witness: the no-route no-op applied at a fresh manager. -/
theorem c5_release_session_noop_witness :
    alLookup "x" SessionPoolManager.new.session_mapping = none ∧
    SessionPoolManager.new.release_session "x" = SessionPoolManager.new := by
  exact ⟨by decide, c5_release_session_noop_and_count.1 SessionPoolManager.new "x" (by decide)⟩

theorem minByLoadScore_go (now : Nat) :
    ∀ (ps : List (String × AccountSessionPool)) (x : String × AccountSessionPool),
      ∃ y, List.foldl
        (fun acc q =>
          match acc with
          | none => some q
          | some z =>
            if q.2.get_load_score now < z.2.get_load_score now then some q else some z)
        (some x) ps = some y ∧
      (y = x ∨ y ∈ ps) ∧ y.2.get_load_score now ≤ x.2.get_load_score now ∧
      ∀ q ∈ ps, y.2.get_load_score now ≤ q.2.get_load_score now := by
  intro ps
  induction ps with
  | nil => exact fun x => ⟨x, rfl, Or.inl rfl, le_refl _, by simp⟩
  | cons q ps' ih =>
    intro x
    by_cases hq : q.2.get_load_score now < x.2.get_load_score now
    · obtain ⟨y, hy, hmem, hle, hall⟩ := ih q
      refine ⟨y, ?_, ?_, ?_, ?_⟩
      · simpa [hq] using hy
      · rcases hmem with rfl | hm
        · exact Or.inr (List.mem_cons_self _ _)
        · exact Or.inr (List.mem_cons_of_mem _ hm)
      · exact le_trans hle (le_of_lt hq)
      · intro r hr
        rcases List.mem_cons.mp hr with rfl | hrm
        · exact hle
        · exact hall r hrm
    · obtain ⟨y, hy, hmem, hle, hall⟩ := ih x
      refine ⟨y, ?_, ?_, ?_, ?_⟩
      · simpa [hq] using hy
      · rcases hmem with rfl | hm
        · exact Or.inl rfl
        · exact Or.inr (List.mem_cons_of_mem _ hm)
      · exact hle
      · intro r hr
        rcases List.mem_cons.mp hr with rfl | hrm
        · exact le_trans hle (not_lt.mp hq)
        · exact hall r hrm

theorem minByLoadScore_spec (now : Nat) (l : List (String × AccountSessionPool))
    (hne : l ≠ []) :
    ∃ y, SessionPoolManager.minByLoadScore l now = some y ∧ y ∈ l ∧
      ∀ q ∈ l, y.2.get_load_score now ≤ q.2.get_load_score now := by
  cases l with
  | nil => exact absurd rfl hne
  | cons p ps =>
    obtain ⟨y, hy, hmem, hle, hall⟩ := minByLoadScore_go now ps p
    refine ⟨y, ?_, ?_, ?_⟩
    · simpa [SessionPoolManager.minByLoadScore] using hy
    · rcases hmem with rfl | hm
      · exact List.mem_cons_self _ _
      · exact List.mem_cons_of_mem _ hm
    · intro q hq
      rcases List.mem_cons.mp hq with rfl | hrm
      · exact hle
      · exact hall q hrm

/-- C6 counterexample: with two busy accounts of equal session count,
e1 idle for 10 seconds and e2 idle for 100 seconds at clock 1000, the
claim says the longest-idle busy account e2 is chosen; the code's
min_by over the score picks e1 (the age term is a penalty, so longer
idle means a higher score), under either iteration order. -/
theorem c6_busy_longest_idle_counterexample :
    ((SessionPoolManager.mk
        [("k", [("e1", AccountSessionPool.mk "e1" "t"
            [("c1", DeepSeekSession.mk "s1" (some "c1") "e1" "t" SessionState.Active 990 990 0 "k")]
            (some "c1") 990 0),
          ("e2", AccountSessionPool.mk "e2" "t"
            [("c2", DeepSeekSession.mk "s2" (some "c2") "e2" "t" SessionState.Active 900 900 0 "k")]
            (some "c2") 900 0)])]
        [] 3600).find_best_available_account "k" 1000 = .ok "e1") ∧
    ((SessionPoolManager.mk
        [("k", [("e2", AccountSessionPool.mk "e2" "t"
            [("c2", DeepSeekSession.mk "s2" (some "c2") "e2" "t" SessionState.Active 900 900 0 "k")]
            (some "c2") 900 0),
          ("e1", AccountSessionPool.mk "e1" "t"
            [("c1", DeepSeekSession.mk "s1" (some "c1") "e1" "t" SessionState.Active 990 990 0 "k")]
            (some "c1") 990 0)])]
        [] 3600).find_best_available_account "k" 1000 = .ok "e1") ∧
    "e1" ≠ "e2" := by
  refine ⟨?_, ?_, by decide⟩ <;>
    norm_num [SessionPoolManager.find_best_available_account, alLookup,
      SessionPoolManager.minByLoadScore, AccountSessionPool.get_load_score,
      AccountSessionPool.is_available, List.foldl]

/-- C6 amended: for a fresh conversation, selection returns an account
of minimal load score, score = (1000 if busy else 0) + 0.1 per session
+ 0.01 per second since last activity; in particular, when every account
of the tenant is busy with equal session counts, the account with the
SHORTEST idle-since-activity (the most recently active busy account) is
among the minimizers and is what the chosen account realizes — not the
longest-idle one. -/
theorem c6_find_best_minimizes_score (m : SessionPoolManager) (api_key : String) (now : Nat)
    (api_pools : List (String × AccountSessionPool))
    (hlook : alLookup api_key m.pools = some api_pools) (hne : api_pools ≠ []) :
    ∃ y, SessionPoolManager.minByLoadScore api_pools now = some y ∧
      m.find_best_available_account api_key now = .ok y.1 ∧
      y ∈ api_pools ∧
      (∀ q ∈ api_pools, y.2.get_load_score now ≤ q.2.get_load_score now) ∧
      ((∀ q ∈ api_pools, q.2.active_session.isSome ∧
          q.2.sessions.length = y.2.sessions.length ∧ q.2.last_activity ≤ now) →
        ∀ q ∈ api_pools, now - y.2.last_activity ≤ now - q.2.last_activity) := by
  obtain ⟨y, hy, hmem, hall⟩ := minByLoadScore_spec now api_pools hne
  have hbest : m.find_best_available_account api_key now = .ok y.1 := by
    have hnemp : api_pools.isEmpty = false := by
      cases api_pools with
      | nil => exact absurd rfl hne
      | cons a b => rfl
    simp [SessionPoolManager.find_best_available_account, hlook, hnemp, hy]
  refine ⟨y, hy, hbest, hmem, hall, ?_⟩
  intro hbusy q hq
  have hsc := hall q hq
  have hyb := hbusy y hmem
  have hqb := hbusy q hq
  have hyav : y.2.is_available = false := by
    rcases Option.isSome_iff_exists.mp hyb.1 with ⟨a, ha⟩
    simp [AccountSessionPool.is_available, ha]
  have hqav : q.2.is_available = false := by
    rcases Option.isSome_iff_exists.mp hqb.1 with ⟨a, ha⟩
    simp [AccountSessionPool.is_available, ha]
  have hlen : q.2.sessions.length = y.2.sessions.length := hqb.2.1
  have hsc' := hall q hq
  simp [AccountSessionPool.get_load_score, hyav, hqav, hlen] at hsc'
  have hyn := hyb.2.2
  have hqn := hqb.2.2
  omega

/-- C6 witness: with one idle and one busy account the amended theorem
applied at the concrete manager returns the idle account e1, which
indeed has minimal score. -/
theorem c6_find_best_minimizes_score_witness :
    ∃ y, SessionPoolManager.minByLoadScore
        [("e1", AccountSessionPool.mk "e1" "t" [] none 1000 1),
         ("e2", AccountSessionPool.mk "e2" "t"
            [("c2", DeepSeekSession.mk "s2" (some "c2") "e2" "t" SessionState.Active 900 900 0 "k")]
            (some "c2") 900 1)] 1000 = some y ∧
      (SessionPoolManager.mk
        [("k", [("e1", AccountSessionPool.mk "e1" "t" [] none 1000 1),
          ("e2", AccountSessionPool.mk "e2" "t"
            [("c2", DeepSeekSession.mk "s2" (some "c2") "e2" "t" SessionState.Active 900 900 0 "k")]
            (some "c2") 900 1)])]
        [] 3600).find_best_available_account "k" 1000 = .ok y.1 ∧
      y ∈ [("e1", AccountSessionPool.mk "e1" "t" [] none 1000 1),
         ("e2", AccountSessionPool.mk "e2" "t"
            [("c2", DeepSeekSession.mk "s2" (some "c2") "e2" "t" SessionState.Active 900 900 0 "k")]
            (some "c2") 900 1)] ∧
      (∀ q ∈ [("e1", AccountSessionPool.mk "e1" "t" [] none 1000 1),
         ("e2", AccountSessionPool.mk "e2" "t"
            [("c2", DeepSeekSession.mk "s2" (some "c2") "e2" "t" SessionState.Active 900 900 0 "k")]
            (some "c2") 900 1)], y.2.get_load_score 1000 ≤ q.2.get_load_score 1000) ∧
      ((∀ q ∈ [("e1", AccountSessionPool.mk "e1" "t" [] none 1000 1),
         ("e2", AccountSessionPool.mk "e2" "t"
            [("c2", DeepSeekSession.mk "s2" (some "c2") "e2" "t" SessionState.Active 900 900 0 "k")]
            (some "c2") 900 1)], q.2.active_session.isSome ∧
          q.2.sessions.length = y.2.sessions.length ∧ q.2.last_activity ≤ 1000) →
        ∀ q ∈ [("e1", AccountSessionPool.mk "e1" "t" [] none 1000 1),
         ("e2", AccountSessionPool.mk "e2" "t"
            [("c2", DeepSeekSession.mk "s2" (some "c2") "e2" "t" SessionState.Active 900 900 0 "k")]
            (some "c2") 900 1)], 1000 - y.2.last_activity ≤ 1000 - q.2.last_activity) := by
  exact c6_find_best_minimizes_score
    (SessionPoolManager.mk
      [("k", [("e1", AccountSessionPool.mk "e1" "t" [] none 1000 1),
        ("e2", AccountSessionPool.mk "e2" "t"
          [("c2", DeepSeekSession.mk "s2" (some "c2") "e2" "t" SessionState.Active 900 900 0 "k")]
          (some "c2") 900 1)])]
      [] 3600) "k" 1000
    [("e1", AccountSessionPool.mk "e1" "t" [] none 1000 1),
     ("e2", AccountSessionPool.mk "e2" "t"
        [("c2", DeepSeekSession.mk "s2" (some "c2") "e2" "t" SessionState.Active 900 900 0 "k")]
        (some "c2") 900 1)] (by decide) (by decide)

/-- C4 counterexample: a routed session idle for 1000000 seconds with
timeout 3600 is neither replaced nor removed by acquire_session — the
very same session (same session_id s, same created_at, last_used still
0) is activated and returned for reuse. -/
theorem c4_stale_reuse_counterexample :
    (((SessionPoolManager.mk
        [("k", [("e", AccountSessionPool.mk "e" "t"
          [("c", DeepSeekSession.mk "s" (some "c") "e" "t" SessionState.Idle 0 0 0 "k")]
          none 0 1)])]
        [("c", ("k", "e"))] 3600).acquire_session "k" (some "c") 1000000 "sid"
        "cv").okConvSession =
      some ("c", DeepSeekSession.mk "s" (some "c") "e" "t" SessionState.Active 0 0 0 "k")) ∧
    1000000 - 0 > 3600 := by
  refine ⟨by decide, by decide⟩

/-- C4 amended: acquire_session performs no idle-timeout check on the
reuse path: whenever a route exists for the conversation under the same
api key, the account pool and the session are present, the account's
permit is free and the account is not busy with another conversation,
the existing session is returned (marked Active, its last_used not even
refreshed) — for every value of now - lastUsedAt, however far beyond the
idle timeout.  Stale sessions are removed only by the periodic sweep. -/
theorem c4_reuse_ignores_staleness (m : SessionPoolManager)
    (api_key ae conv : String) (now : Nat) (sid fc : String)
    (api_pools : List (String × AccountSessionPool)) (pool : AccountSessionPool)
    (s : DeepSeekSession)
    (hroute : alLookup conv m.session_mapping = some (api_key, ae))
    (hap : alLookup api_key m.pools = some api_pools)
    (hpool : alLookup ae api_pools = some pool)
    (hperm : pool.permits ≠ 0)
    (hsess : alLookup conv pool.sessions = some s)
    (hact : pool.active_session = none ∨ pool.active_session = some conv) :
    (m.acquire_session api_key (some conv) now sid fc).okConvSession =
      some (conv, { s with state := SessionState.Active }) := by
  have hbind : (alLookup api_key m.pools).bind (alLookup ae) = some pool := by
    simp [hap, hpool]
  rcases hact with hact | hact
  · simp [SessionPoolManager.acquire_session, hroute,
      SessionPoolManager.reuse_existing_session, hbind, hperm,
      SessionPoolManager.permitDec, SessionPoolManager.permitInc,
      SessionPoolManager.updatePool, alLookup_alUpdate_self, hap, hpool,
      AccountSessionPool.activate_session, hsess, hact,
      AcquireOutcome.okConvSession]
  · simp [SessionPoolManager.acquire_session, hroute,
      SessionPoolManager.reuse_existing_session, hbind, hperm,
      SessionPoolManager.permitDec, SessionPoolManager.permitInc,
      SessionPoolManager.updatePool, alLookup_alUpdate_self, hap, hpool,
      AccountSessionPool.activate_session, hsess, hact,
      AcquireOutcome.okConvSession]

/-- C4 witness: the reuse theorem applied at the concrete one-account
manager whose routed session c exists and whose permit is free. -/
theorem c4_reuse_ignores_staleness_witness :
    ((SessionPoolManager.mk
        [("k", [("e", AccountSessionPool.mk "e" "t"
          [("c", DeepSeekSession.mk "s" (some "c") "e" "t" SessionState.Idle 5 5 2 "k")]
          none 5 1)])]
        [("c", ("k", "e"))] 3600).acquire_session "k" (some "c") 999999 "sid"
        "cv").okConvSession =
      some ("c", DeepSeekSession.mk "s" (some "c") "e" "t" SessionState.Active 5 5 2 "k") := by
  exact c4_reuse_ignores_staleness
    (SessionPoolManager.mk
      [("k", [("e", AccountSessionPool.mk "e" "t"
        [("c", DeepSeekSession.mk "s" (some "c") "e" "t" SessionState.Idle 5 5 2 "k")]
        none 5 1)])]
      [("c", ("k", "e"))] 3600)
    "k" "e" "c" 999999 "sid" "cv"
    [("e", AccountSessionPool.mk "e" "t"
      [("c", DeepSeekSession.mk "s" (some "c") "e" "t" SessionState.Idle 5 5 2 "k")]
      none 5 1)]
    (AccountSessionPool.mk "e" "t"
      [("c", DeepSeekSession.mk "s" (some "c") "e" "t" SessionState.Idle 5 5 2 "k")]
      none 5 1)
    (DeepSeekSession.mk "s" (some "c") "e" "t" SessionState.Idle 5 5 2 "k")
    (by decide) (by decide) (by decide) (by decide) (by decide) (Or.inl (by decide))

theorem activate_session_ok_permits (p : AccountSessionPool) (c : String) (now : Nat)
    (p' : AccountSessionPool) (h : p.activate_session c now = .ok p') :
    p'.permits = p.permits := by
  unfold AccountSessionPool.activate_session at h
  cases hl : alLookup c p.sessions with
  | none => simp [hl] at h
  | some s =>
    cases ha : p.active_session with
    | none =>
      simp [hl, ha] at h
      subst h
      rfl
    | some active_id =>
      by_cases heq : active_id = c
      · simp [hl, ha, heq] at h
        subst h
        rfl
      · simp [hl, ha, heq] at h

theorem get_or_create_session_permits (p : AccountSessionPool) (conv? : Option String)
    (api : String) (now : Nat) (sid fc : String) :
    (p.get_or_create_session conv? api now sid fc).2.permits = p.permits := by
  rcases conv? with _ | c
  · rfl
  · unfold AccountSessionPool.get_or_create_session
    cases hl : alLookup c p.sessions with
    | none => simp [hl, AccountSessionPool.create_session]
    | some s =>
      by_cases hs : s.state = SessionState.Expired
      · simp [hl, hs, AccountSessionPool.create_session]
      · simp [hl, hs]

theorem permitAt_updatePool_preserve (m : SessionPoolManager) (x y : String)
    (f : AccountSessionPool → AccountSessionPool) (h : ∀ p, (f p).permits = p.permits)
    (a e : String) : permitAt (m.updatePool x y f) a e = permitAt m a e := by
  unfold permitAt SessionPoolManager.updatePool
  by_cases hx : a = x
  · subst hx
    rw [show ({ m with pools := alUpdate a (alUpdate y f) m.pools } :
        SessionPoolManager).pools = alUpdate a (alUpdate y f) m.pools from rfl]
    rw [alLookup_alUpdate_self]
    cases hl : alLookup a m.pools with
    | none => rfl
    | some apl =>
      simp only [Option.map_some', Option.some_bind]
      by_cases hy : e = y
      · subst hy
        rw [alLookup_alUpdate_self]
        cases hle : alLookup e apl with
        | none => rfl
        | some p => simp [h p]
      · rw [alLookup_alUpdate_ne e y hy]
  · rw [show ({ m with pools := alUpdate x (alUpdate y f) m.pools } :
        SessionPoolManager).pools = alUpdate x (alUpdate y f) m.pools from rfl]
    rw [alLookup_alUpdate_ne a x hx]

theorem permitAt_inc_dec (m : SessionPoolManager) (api ae : String)
    (pool : AccountSessionPool)
    (hb : (alLookup api m.pools).bind (alLookup ae) = some pool)
    (hperm : pool.permits ≠ 0) (a e : String) :
    permitAt ((m.permitDec api ae).permitInc api ae) a e = permitAt m a e := by
  obtain ⟨apl, hapl, hple⟩ :
      ∃ apl, alLookup api m.pools = some apl ∧ alLookup ae apl = some pool := by
    cases hl : alLookup api m.pools with
    | none => simp [hl] at hb
    | some apl => exact ⟨apl, rfl, by simpa [hl] using hb⟩
  simp only [permitAt, SessionPoolManager.permitInc, SessionPoolManager.permitDec,
    SessionPoolManager.updatePool]
  by_cases hx : a = api
  · subst hx
    simp only [alUpdate_alUpdate, alLookup_alUpdate_self, hapl, Option.map_some',
      Option.some_bind]
    by_cases hy : e = ae
    · subst hy
      simp only [alLookup_alUpdate_self, hple, Option.map_some']
      have h1 : pool.permits - 1 + 1 = pool.permits := by omega
      simp [h1]
    · first
      | rfl
      | simp [alLookup_alUpdate_ne e ae hy]
  · first
    | rfl
    | simp [alLookup_alUpdate_ne a api hx]

theorem permitAt_restore_after_update (m : SessionPoolManager) (api ae : String)
    (pool pool2 : AccountSessionPool)
    (hb : (alLookup api m.pools).bind (alLookup ae) = some pool)
    (hperm : pool.permits ≠ 0) (hp2 : pool2.permits = pool.permits - 1)
    (a e : String) :
    permitAt (((m.permitDec api ae).updatePool api ae (fun _ => pool2)).permitInc api ae) a e
      = permitAt m a e := by
  obtain ⟨apl, hapl, hple⟩ :
      ∃ apl, alLookup api m.pools = some apl ∧ alLookup ae apl = some pool := by
    cases hl : alLookup api m.pools with
    | none => simp [hl] at hb
    | some apl => exact ⟨apl, rfl, by simpa [hl] using hb⟩
  simp only [permitAt, SessionPoolManager.permitInc, SessionPoolManager.permitDec,
    SessionPoolManager.updatePool]
  by_cases hx : a = api
  · subst hx
    simp only [alUpdate_alUpdate, alLookup_alUpdate_self, hapl, Option.map_some',
      Option.some_bind]
    by_cases hy : e = ae
    · subst hy
      simp only [alLookup_alUpdate_self, hple, Option.map_some']
      have h1 : pool2.permits + 1 = pool.permits := by omega
      simp [h1]
    · first
      | rfl
      | simp [alLookup_alUpdate_ne e ae hy]
  · first
    | rfl
    | simp [alLookup_alUpdate_ne a api hx]

theorem reuse_preserves_permits (m : SessionPoolManager) (api ae conv : String) (now : Nat)
    (m' : SessionPoolManager) (a e : String)
    (hst : (m.reuse_existing_session api ae conv now).stateOf = some m') :
    permitAt m' a e = permitAt m a e := by
  unfold SessionPoolManager.reuse_existing_session at hst
  cases hb : (alLookup api m.pools).bind (alLookup ae) with
  | none =>
    simp [hb, AcquireOutcome.stateOf] at hst
    rw [← hst]
  | some pool =>
    obtain ⟨apl, hapl, hple⟩ :
        ∃ apl, alLookup api m.pools = some apl ∧ alLookup ae apl = some pool := by
      cases hl : alLookup api m.pools with
      | none => simp [hl] at hb
      | some apl => exact ⟨apl, rfl, by simpa [hl] using hb⟩
    by_cases hp : pool.permits = 0
    · simp [hb, hp, AcquireOutcome.stateOf] at hst
    · have hl1 : alLookup api (m.permitDec api ae).pools =
          some (alUpdate ae (fun p => { p with permits := p.permits - 1 }) apl) := by
        simp [SessionPoolManager.permitDec, SessionPoolManager.updatePool,
          alLookup_alUpdate_self, hapl]
      have hl2 : alLookup ae (alUpdate ae (fun p => { p with permits := p.permits - 1 }) apl)
          = some { pool with permits := pool.permits - 1 } := by
        simp [alLookup_alUpdate_self, hple]
      cases hac : ({ pool with permits := pool.permits - 1 } :
          AccountSessionPool).activate_session conv now with
      | error err =>
        simp only [hb, hp, if_neg (by exact hp), hl1, hl2, hac,
          AcquireOutcome.stateOf, Option.some.injEq, if_false] at hst
        rw [← hst]
        exact permitAt_inc_dec m api ae pool hb hp a e
      | ok pool2 =>
        have hp2 : pool2.permits = pool.permits - 1 := by
          have h := activate_session_ok_permits _ _ _ _ hac
          simpa using h
        have hfin0 : (alLookup api
              ((m.permitDec api ae).updatePool api ae (fun _ => pool2)).pools).bind
              (alLookup ae) = some pool2 := by
          simp [SessionPoolManager.permitDec, SessionPoolManager.updatePool,
            alLookup_alUpdate_self, alUpdate_alUpdate, hapl, hple]
        cases hfin : alLookup conv pool2.sessions with
        | none =>
          simp only [hb, hp, hl1, hl2, hac, hfin0, hfin, AcquireOutcome.stateOf,
            Option.some_bind, Option.some.injEq, if_false] at hst
          rw [← hst]
          exact permitAt_restore_after_update m api ae pool pool2 hb hp hp2 a e
        | some session =>
          simp only [hb, hp, hl1, hl2, hac, hfin0, hfin, AcquireOutcome.stateOf,
            Option.some_bind, Option.some.injEq, if_false] at hst
          rw [← hst]
          exact permitAt_restore_after_update m api ae pool pool2 hb hp hp2 a e

theorem fresh_preserves_permits (m : SessionPoolManager) (api : String)
    (conv? : Option String) (now : Nat) (sid fc : String)
    (m' : SessionPoolManager) (a e : String)
    (hst : (m.acquire_session_fresh api conv? now sid fc).stateOf = some m') :
    permitAt m' a e = permitAt m a e := by
  unfold SessionPoolManager.acquire_session_fresh at hst
  cases hfb : m.find_best_available_account api now with
  | error err =>
    simp [hfb, AcquireOutcome.stateOf] at hst
    rw [← hst]
  | ok best =>
    cases hb : (alLookup api m.pools).bind (alLookup best) with
    | none =>
      simp [hfb, hb, AcquireOutcome.stateOf] at hst
      rw [← hst]
    | some pool =>
      obtain ⟨apl, hapl, hple⟩ :
          ∃ apl, alLookup api m.pools = some apl ∧ alLookup best apl = some pool := by
        cases hl : alLookup api m.pools with
        | none => simp [hl] at hb
        | some apl => exact ⟨apl, rfl, by simpa [hl] using hb⟩
      by_cases hp : pool.permits = 0
      · simp [hfb, hb, hp, AcquireOutcome.stateOf] at hst
      · have hl1 : alLookup api (m.permitDec api best).pools =
            some (alUpdate best (fun p => { p with permits := p.permits - 1 }) apl) := by
          simp [SessionPoolManager.permitDec, SessionPoolManager.updatePool,
            alLookup_alUpdate_self, hapl]
        have hl2 : alLookup best
            (alUpdate best (fun p => { p with permits := p.permits - 1 }) apl)
            = some { pool with permits := pool.permits - 1 } := by
          simp [alLookup_alUpdate_self, hple]
        cases hac : (({ pool with permits := pool.permits - 1 } :
              AccountSessionPool).get_or_create_session conv? api now sid
              fc).2.activate_session
            (({ pool with permits := pool.permits - 1 } :
              AccountSessionPool).get_or_create_session conv? api now sid fc).1 now with
        | error err =>
          have hp2 : (({ pool with permits := pool.permits - 1 } :
              AccountSessionPool).get_or_create_session conv? api now sid fc).2.permits =
              pool.permits - 1 := by
            simpa using get_or_create_session_permits
              { pool with permits := pool.permits - 1 } conv? api now sid fc
          simp only [hfb, hb, hp, hl1, hl2, hac, AcquireOutcome.stateOf,
            Option.some.injEq, if_false] at hst
          rw [← hst]
          exact permitAt_restore_after_update m api best pool _ hb hp hp2 a e
        | ok pool3 =>
          have hp3 : pool3.permits = pool.permits - 1 := by
            have h := activate_session_ok_permits _ _ _ _ hac
            rw [get_or_create_session_permits] at h
            simpa using h
          have hfin0 : (alLookup api
                ((m.permitDec api best).updatePool api best (fun _ => pool3)).pools).bind
                (alLookup best) = some pool3 := by
            simp [SessionPoolManager.permitDec, SessionPoolManager.updatePool,
              alLookup_alUpdate_self, alUpdate_alUpdate, hapl, hple]
          cases hfin : alLookup (({ pool with permits := pool.permits - 1 } :
              AccountSessionPool).get_or_create_session conv? api now sid fc).1
              pool3.sessions with
          | none =>
            simp only [hfb, hb, hp, hl1, hl2, hac, hfin0, hfin, AcquireOutcome.stateOf,
              Option.some_bind, Option.some.injEq, if_false] at hst
            rw [← hst]
            exact permitAt_restore_after_update m api best pool pool3 hb hp hp3 a e
          | some session =>
            simp only [hfb, hb, hp, hl1, hl2, hac, hfin0, hfin, AcquireOutcome.stateOf,
              Option.some_bind, Option.some.injEq, if_false] at hst
            rw [← hst]
            exact permitAt_restore_after_update m api best pool pool3 hb hp hp3 a e

/-- C3 counterexample: a successful acquire_session returns with the
account's capacity-1 permit already available again (1 permit, same as
before the call) even though releaseSession has not been invoked — the
permit is dropped when acquire_session returns, so it does not remain
held until release. -/
theorem c3_permit_not_held_counterexample :
    (((SessionPoolManager.mk
        [("k", [("e", AccountSessionPool.mk "e" "t"
          [("c", DeepSeekSession.mk "s" (some "c") "e" "t" SessionState.Idle 0 0 0 "k")]
          none 0 1)])]
        [("c", ("k", "e"))] 3600).acquire_session "k" (some "c") 10 "sid"
        "cv").okConvSession).isSome ∧
    (((SessionPoolManager.mk
        [("k", [("e", AccountSessionPool.mk "e" "t"
          [("c", DeepSeekSession.mk "s" (some "c") "e" "t" SessionState.Idle 0 0 0 "k")]
          none 0 1)])]
        [("c", ("k", "e"))] 3600).acquire_session "k" (some "c") 10 "sid"
        "cv").stateOf).map (fun m' => permitAt m' "k" "e") = some (some 1) ∧
    permitAt (SessionPoolManager.mk
        [("k", [("e", AccountSessionPool.mk "e" "t"
          [("c", DeepSeekSession.mk "s" (some "c") "e" "t" SessionState.Idle 0 0 0 "k")]
          none 0 1)])]
        [("c", ("k", "e"))] 3600) "k" "e" = some 1 := by
  refine ⟨by decide, by decide, by decide⟩

/-- C3 amended: the permit is held only for the duration of the
acquire_session call itself — on every return path (success or error)
the available-permit count of every account is exactly what it was
before the call, because the Rust SemaphorePermit is dropped when the
function returns; release_session never touches any permit either; the
exclusion that does last until release is the active_session field,
whose busy check makes activate_session refuse any other conversation
while one is active. -/
theorem c3_permit_released_on_return :
    (∀ (m : SessionPoolManager) (c a e : String),
      permitAt (m.release_session c) a e = permitAt m a e) ∧
    (∀ (m : SessionPoolManager) (api : String) (conv? : Option String) (now : Nat)
        (sid fc : String) (m' : SessionPoolManager) (a e : String),
      (m.acquire_session api conv? now sid fc).stateOf = some m' →
      permitAt m' a e = permitAt m a e) ∧
    (∀ (p : AccountSessionPool) (c c2 : String) (now : Nat) (p' : AccountSessionPool),
      p.active_session = some c → c2 ≠ c → p.activate_session c2 now ≠ .ok p') := by
  refine ⟨?_, ?_, ?_⟩
  · intro m c a e
    unfold SessionPoolManager.release_session
    cases hr : alLookup c m.session_mapping with
    | none => simp only [hr]
    | some route =>
      simp only [hr]
      exact permitAt_updatePool_preserve m route.1 route.2
        (fun p => p.release_session c) (fun p => rfl) a e
  · intro m api conv? now sid fc m' a e hst
    rcases conv? with _ | c
    · exact fresh_preserves_permits m api none now sid fc m' a e hst
    · unfold SessionPoolManager.acquire_session at hst
      cases hr : alLookup c m.session_mapping with
      | none =>
        simp only [hr] at hst
        exact fresh_preserves_permits m api (some c) now sid fc m' a e hst
      | some route =>
        by_cases hq : route.1 = api
        · simp only [hr, hq, if_pos] at hst
          exact reuse_preserves_permits m api route.2 c now m' a e (by simpa using hst)
        · simp only [hr, hq, if_false] at hst
          exact fresh_preserves_permits m api (some c) now sid fc m' a e (by simpa [hq] using hst)
  · intro p c c2 now p' ha hc2
    unfold AccountSessionPool.activate_session
    cases hl : alLookup c2 p.sessions with
    | none => simp
    | some s =>
      have : c ≠ c2 := fun hh => hc2 hh.symm
      simp [ha, this]

/-- C3 witness: the acquire part of the amended theorem applied at the
concrete reuse-path acquisition, whose resulting state has the permit
back at 1. -/
theorem c3_permit_released_on_return_witness :
    permitAt (SessionPoolManager.mk
        [("k", [("e", AccountSessionPool.mk "e" "t"
          [("c", DeepSeekSession.mk "s" (some "c") "e" "t" SessionState.Active 0 0 0 "k")]
          (some "c") 10 1)])]
        [("c", ("k", "e"))] 3600) "k" "e" =
      permitAt (SessionPoolManager.mk
        [("k", [("e", AccountSessionPool.mk "e" "t"
          [("c", DeepSeekSession.mk "s" (some "c") "e" "t" SessionState.Idle 0 0 0 "k")]
          none 0 1)])]
        [("c", ("k", "e"))] 3600) "k" "e" := by
  exact c3_permit_released_on_return.2.1
    (SessionPoolManager.mk
      [("k", [("e", AccountSessionPool.mk "e" "t"
        [("c", DeepSeekSession.mk "s" (some "c") "e" "t" SessionState.Idle 0 0 0 "k")]
        none 0 1)])]
      [("c", ("k", "e"))] 3600) "k" (some "c") 10 "sid" "cv"
    (SessionPoolManager.mk
      [("k", [("e", AccountSessionPool.mk "e" "t"
        [("c", DeepSeekSession.mk "s" (some "c") "e" "t" SessionState.Active 0 0 0 "k")]
        (some "c") 10 1)])]
      [("c", ("k", "e"))] 3600) "k" "e" (by decide)

theorem alLookup_map_val {α β : Type} (k : String) (g : α → β) (l : List (String × α)) :
    alLookup k (l.map (fun p => (p.1, g p.2))) = (alLookup k l).map g := by
  induction l with
  | nil => rfl
  | cons p ps ih =>
    by_cases hp : p.1 = k
    · simp [alLookup, hp]
    · simpa [alLookup, hp] using ih

theorem alLookup_retainLive_not_expired (now t : Nat)
    (l : List (String × DeepSeekSession)) (conv : String) (s : DeepSeekSession)
    (h : alLookup conv (AccountSessionPool.retainLive now t l) = some s) :
    ¬ AccountSessionPool.sessionExpired now t s := by
  induction l with
  | nil => simp [AccountSessionPool.retainLive, alLookup] at h
  | cons p ps ih =>
    by_cases he : AccountSessionPool.sessionExpired now t p.2
    · exact ih (by simpa [AccountSessionPool.retainLive, he] using h)
    · by_cases hk : p.1 = conv
      · have : p.2 = s := by
          simpa [AccountSessionPool.retainLive, he, alLookup, hk] using h
        exact this ▸ he
      · exact ih (by simpa [AccountSessionPool.retainLive, he, alLookup, hk] using h)

theorem alLookup_retainLive_of_kept (now t : Nat)
    (l : List (String × DeepSeekSession)) (conv : String) (s : DeepSeekSession)
    (h1 : alLookup conv l = some s) (h2 : ¬ AccountSessionPool.sessionExpired now t s) :
    alLookup conv (AccountSessionPool.retainLive now t l) = some s := by
  induction l with
  | nil => simp [alLookup] at h1
  | cons p ps ih =>
    by_cases hk : p.1 = conv
    · have hps : p.2 = s := by simpa [alLookup, hk] using h1
      subst hps
      simp [AccountSessionPool.retainLive, h2, alLookup, hk]
    · have h1' : alLookup conv ps = some s := by simpa [alLookup, hk] using h1
      by_cases he : AccountSessionPool.sessionExpired now t p.2
      · simpa [AccountSessionPool.retainLive, he] using ih h1'
      · simpa [AccountSessionPool.retainLive, he, alLookup, hk] using ih h1'

theorem retainLive_length_le (now t : Nat) (l : List (String × DeepSeekSession)) :
    (AccountSessionPool.retainLive now t l).length ≤ l.length := by
  induction l with
  | nil => exact le_refl 0
  | cons p ps ih =>
    by_cases he : AccountSessionPool.sessionExpired now t p.2
    · simp only [AccountSessionPool.retainLive, if_pos he, List.length_cons]
      omega
    · simp only [AccountSessionPool.retainLive, if_neg he, List.length_cons]
      omega

theorem alLookup_retainRoutes (cleaned : List (String × List (String × AccountSessionPool)))
    (routes : List (String × (String × String))) (conv : String) (r : String × String)
    (h : alLookup conv (SessionPoolManager.retainRoutes cleaned routes) = some r) :
    ∃ pool, (alLookup r.1 cleaned).bind (alLookup r.2) = some pool ∧
      (alLookup conv pool.sessions).isSome := by
  induction routes with
  | nil => simp [SessionPoolManager.retainRoutes, alLookup] at h
  | cons me rest ih =>
    cases hm : (alLookup me.2.1 cleaned).bind (alLookup me.2.2) with
    | none => exact ih (by simpa [SessionPoolManager.retainRoutes, hm] using h)
    | some pool =>
      by_cases hs : (alLookup me.1 pool.sessions).isSome
      · by_cases hk : me.1 = conv
        · rw [hk] at hs
          have hr : me.2 = r := by
            simpa [SessionPoolManager.retainRoutes, hm, hs, alLookup, hk] using h
          subst hr
          exact ⟨pool, hm, hs⟩
        · exact ih (by simpa [SessionPoolManager.retainRoutes, hm, hs, alLookup, hk] using h)
      · exact ih (by simpa [SessionPoolManager.retainRoutes, hm, hs] using h)

/-- C8: after the manager-level sweep, the account map holds exactly the
per-account cleaned pools (so every session with now - lastUsedAt beyond
the timeout is absent and survivors are untouched, with active_session
cleared when it named a removed session), every surviving route targets
an account whose pool still holds the conversation's session, and the
returned count is the total number of sessions removed. -/
theorem c8_cleanup_sweep (m : SessionPoolManager) (now : Nat)
    (_hle : ∀ ap ∈ m.pools, ∀ ep ∈ ap.2, ∀ sp ∈ ep.2.sessions, sp.2.last_used ≤ now) :
    (∀ api ae : String,
      (alLookup api (m.cleanup_expired_sessions now).2.pools).bind (alLookup ae) =
        ((alLookup api m.pools).bind (alLookup ae)).map
          (fun p => (p.cleanup_expired_sessions now m.session_timeout).2)) ∧
    (∀ p : AccountSessionPool,
      (∀ conv s,
        alLookup conv (p.cleanup_expired_sessions now m.session_timeout).2.sessions =
          some s →
        ¬ AccountSessionPool.sessionExpired now m.session_timeout s) ∧
      (∀ conv s, alLookup conv p.sessions = some s →
        ¬ AccountSessionPool.sessionExpired now m.session_timeout s →
        alLookup conv (p.cleanup_expired_sessions now m.session_timeout).2.sessions =
          some s) ∧
      (∀ ac s, p.active_session = some ac → alLookup ac p.sessions = some s →
        AccountSessionPool.sessionExpired now m.session_timeout s →
        (p.cleanup_expired_sessions now m.session_timeout).2.active_session = none) ∧
      (p.cleanup_expired_sessions now m.session_timeout).2.sessions.length ≤
        p.sessions.length ∧
      (p.cleanup_expired_sessions now m.session_timeout).1 =
        p.sessions.length -
          (p.cleanup_expired_sessions now m.session_timeout).2.sessions.length) ∧
    (∀ conv r,
      alLookup conv (m.cleanup_expired_sessions now).2.session_mapping = some r →
      ∃ pool,
        (alLookup r.1 (m.cleanup_expired_sessions now).2.pools).bind (alLookup r.2) =
          some pool ∧ (alLookup conv pool.sessions).isSome) ∧
    (m.cleanup_expired_sessions now).1 =
      totalSessions m - totalSessions (m.cleanup_expired_sessions now).2 := by
  refine ⟨?_, ?_, ?_, ?_⟩
  · intro api ae
    rw [show (m.cleanup_expired_sessions now).2.pools =
        m.pools.map (fun ap => (ap.1, ap.2.map (fun ep =>
          (ep.1, (ep.2.cleanup_expired_sessions now m.session_timeout).2)))) from rfl]
    rw [alLookup_map_val]
    cases hl : alLookup api m.pools with
    | none => rfl
    | some apl =>
      simp only [Option.map_some', Option.some_bind]
      exact alLookup_map_val ae
        (fun p => (p.cleanup_expired_sessions now m.session_timeout).2) apl
  · intro p
    refine ⟨?_, ?_, ?_, ?_, ?_⟩
    · intro conv s h
      exact alLookup_retainLive_not_expired now m.session_timeout p.sessions conv s h
    · intro conv s h1 h2
      exact alLookup_retainLive_of_kept now m.session_timeout p.sessions conv s h1 h2
    · intro ac s ha hs hexp
      simp [AccountSessionPool.cleanup_expired_sessions, ha, hs, hexp]
    · exact retainLive_length_le now m.session_timeout p.sessions
    · rfl
  · intro conv r h
    exact alLookup_retainRoutes _ _ conv r h
  · have inner : ∀ l : List (String × AccountSessionPool),
        (l.map (fun ep =>
            (ep.2.cleanup_expired_sessions now m.session_timeout).1)).sum =
          (l.map (fun ep => ep.2.sessions.length)).sum -
          (l.map (fun ep =>
            (ep.2.cleanup_expired_sessions now m.session_timeout).2.sessions.length)).sum ∧
        (l.map (fun ep =>
            (ep.2.cleanup_expired_sessions now m.session_timeout).2.sessions.length)).sum ≤
          (l.map (fun ep => ep.2.sessions.length)).sum := by
      intro l
      induction l with
      | nil => simp
      | cons q qs ih =>
        obtain ⟨ih1, ih2⟩ := ih
        have h1 : (q.2.cleanup_expired_sessions now m.session_timeout).1 =
            q.2.sessions.length -
              (q.2.cleanup_expired_sessions now m.session_timeout).2.sessions.length := rfl
        have h2 : (q.2.cleanup_expired_sessions now m.session_timeout).2.sessions.length ≤
            q.2.sessions.length := retainLive_length_le now m.session_timeout q.2.sessions
        simp only [List.map_cons, List.sum_cons]
        constructor <;> omega
    have outer : ∀ L : List (String × List (String × AccountSessionPool)),
        (L.map (fun ap => (ap.2.map (fun ep =>
            (ep.2.cleanup_expired_sessions now m.session_timeout).1)).sum)).sum =
          (L.map (fun ap => (ap.2.map (fun ep => ep.2.sessions.length)).sum)).sum -
          (L.map (fun ap => (ap.2.map (fun ep =>
            (ep.2.cleanup_expired_sessions now m.session_timeout).2.sessions.length)).sum)).sum ∧
        (L.map (fun ap => (ap.2.map (fun ep =>
            (ep.2.cleanup_expired_sessions now m.session_timeout).2.sessions.length)).sum)).sum ≤
          (L.map (fun ap => (ap.2.map (fun ep => ep.2.sessions.length)).sum)).sum := by
      intro L
      induction L with
      | nil => simp
      | cons q qs ih =>
        obtain ⟨ih1, ih2⟩ := ih
        obtain ⟨i1, i2⟩ := inner q.2
        simp only [List.map_cons, List.sum_cons]
        constructor <;> omega
    obtain ⟨o1, o2⟩ := outer m.pools
    have hts : totalSessions (m.cleanup_expired_sessions now).2 =
        (m.pools.map (fun ap => (ap.2.map (fun ep =>
          (ep.2.cleanup_expired_sessions now m.session_timeout).2.sessions.length)).sum)).sum := by
      show ((m.pools.map (fun ap => (ap.1, ap.2.map (fun ep =>
          (ep.1, (ep.2.cleanup_expired_sessions now m.session_timeout).2))))).map
          (fun ap => (ap.2.map (fun ep => ep.2.sessions.length)).sum)).sum = _
      simp [List.map_map, Function.comp_def]
    show (m.pools.map (fun ap => (ap.2.map (fun ep =>
        (ep.2.cleanup_expired_sessions now m.session_timeout).1)).sum)).sum = _
    rw [hts]
    exact o1

/-- C8 witness: the sweep theorem applied at a concrete manager holding
one expired session (idle 4900s, timeout 3600) and one live session,
with the timestamp precondition discharged. -/
theorem c8_cleanup_sweep_witness :
    ((SessionPoolManager.mk
      [("k", [("e", AccountSessionPool.mk "e" "t"
        [("c1", DeepSeekSession.mk "s1" (some "c1") "e" "t" SessionState.Idle 100 100 1 "k"),
         ("c2", DeepSeekSession.mk "s2" (some "c2") "e" "t" SessionState.Idle 4000 4000 1 "k")]
        none 4000 1)])]
      [("c1", ("k", "e")), ("c2", ("k", "e"))] 3600).cleanup_expired_sessions 5000).1 =
    totalSessions (SessionPoolManager.mk
      [("k", [("e", AccountSessionPool.mk "e" "t"
        [("c1", DeepSeekSession.mk "s1" (some "c1") "e" "t" SessionState.Idle 100 100 1 "k"),
         ("c2", DeepSeekSession.mk "s2" (some "c2") "e" "t" SessionState.Idle 4000 4000 1 "k")]
        none 4000 1)])]
      [("c1", ("k", "e")), ("c2", ("k", "e"))] 3600) -
    totalSessions ((SessionPoolManager.mk
      [("k", [("e", AccountSessionPool.mk "e" "t"
        [("c1", DeepSeekSession.mk "s1" (some "c1") "e" "t" SessionState.Idle 100 100 1 "k"),
         ("c2", DeepSeekSession.mk "s2" (some "c2") "e" "t" SessionState.Idle 4000 4000 1 "k")]
        none 4000 1)])]
      [("c1", ("k", "e")), ("c2", ("k", "e"))] 3600).cleanup_expired_sessions 5000).2 := by
  exact (c8_cleanup_sweep (SessionPoolManager.mk
      [("k", [("e", AccountSessionPool.mk "e" "t"
        [("c1", DeepSeekSession.mk "s1" (some "c1") "e" "t" SessionState.Idle 100 100 1 "k"),
         ("c2", DeepSeekSession.mk "s2" (some "c2") "e" "t" SessionState.Idle 4000 4000 1 "k")]
        none 4000 1)])]
      [("c1", ("k", "e")), ("c2", ("k", "e"))] 3600) 5000 (by decide)).2.2.2

theorem alLookup_mem {α : Type} (l : List (String × α)) (c : String) (s : α)
    (h : alLookup c l = some s) : (c, s) ∈ l := by
  induction l with
  | nil => simp [alLookup] at h
  | cons p ps ih =>
    by_cases hp : p.1 = c
    · have hv : p.2 = s := by simpa [alLookup, hp] using h
      have hps : p = (c, s) := Prod.ext hp hv
      rw [← hps]
      exact List.mem_cons_self _ _
    · exact List.mem_cons_of_mem _ (ih (by simpa [alLookup, hp] using h))

theorem mem_alLookup {α : Type} (l : List (String × α)) (c : String) (s : α)
    (hn : (alKeys l).Nodup) (h : (c, s) ∈ l) : alLookup c l = some s := by
  induction l with
  | nil => simp at h
  | cons p ps ih =>
    have hn' : (p.1 :: alKeys ps).Nodup := hn
    have hcons := List.nodup_cons.mp hn'
    rcases List.mem_cons.mp h with rfl | hmem
    · simp [alLookup]
    · have hp : p.1 ≠ c := by
        intro hh
        apply hcons.1
        rw [hh]
        exact List.mem_map_of_mem Prod.fst hmem
      simpa [alLookup, hp] using ih hcons.2 hmem

theorem retainLive_sublist (now t : Nat) (l : List (String × DeepSeekSession)) :
    (AccountSessionPool.retainLive now t l).Sublist l := by
  induction l with
  | nil => exact List.Sublist.refl []
  | cons p ps ih =>
    by_cases he : AccountSessionPool.sessionExpired now t p.2
    · simpa [AccountSessionPool.retainLive, he] using ih.cons p
    · simpa [AccountSessionPool.retainLive, he] using ih.cons₂ p

theorem mem_retainLive_not_expired (now t : Nat) (l : List (String × DeepSeekSession))
    (e : String × DeepSeekSession) (h : e ∈ AccountSessionPool.retainLive now t l) :
    ¬ AccountSessionPool.sessionExpired now t e.2 := by
  induction l with
  | nil => simp [AccountSessionPool.retainLive] at h
  | cons p ps ih =>
    by_cases he : AccountSessionPool.sessionExpired now t p.2
    · exact ih (by simpa [AccountSessionPool.retainLive, he] using h)
    · rcases List.mem_cons.mp (by simpa [AccountSessionPool.retainLive, he] using h) with
        rfl | hmem
      · exact he
      · exact ih hmem

theorem alKeys_alUpdate {α : Type} (k : String) (f : α → α) (l : List (String × α)) :
    alKeys (alUpdate k f l) = alKeys l := by
  induction l with
  | nil => rfl
  | cons p ps ih =>
    by_cases hp : p.1 = k
    · simpa [alKeys, alUpdate, hp] using ih
    · simpa [alKeys, alUpdate, hp] using ih

theorem alErase_sublist {α : Type} (k : String) (l : List (String × α)) :
    (alErase k l).Sublist l := by
  induction l with
  | nil => exact List.Sublist.refl []
  | cons p ps ih =>
    by_cases hp : p.1 = k
    · simpa [alErase, hp] using ih.cons p
    · simpa [alErase, hp] using ih.cons₂ p

theorem not_mem_alKeys_alErase {α : Type} (k : String) (l : List (String × α)) :
    k ∉ alKeys (alErase k l) := by
  induction l with
  | nil => simp [alErase, alKeys]
  | cons p ps ih =>
    by_cases hp : p.1 = k
    · simpa [alErase, hp] using ih
    · intro hmem
      have hk : alKeys (alErase k (p :: ps)) = p.1 :: alKeys (alErase k ps) := by
        simp [alErase, hp, alKeys]
      rw [hk] at hmem
      rcases List.mem_cons.mp hmem with hh | hh
      · exact hp hh.symm
      · exact ih hh

theorem nodup_alInsert {α : Type} (k : String) (v : α) (l : List (String × α))
    (hn : (alKeys l).Nodup) : (alKeys (alInsert k v l)).Nodup := by
  have herase : (alKeys (alErase k l)).Nodup := by
    have hsub : (alKeys (alErase k l)).Sublist (alKeys l) :=
      (alErase_sublist k l).map Prod.fst
    exact hn.sublist hsub
  have : alKeys (alInsert k v l) = k :: alKeys (alErase k l) := rfl
  rw [this]
  exact List.nodup_cons.mpr ⟨not_mem_alKeys_alErase k l, herase⟩

theorem activeInv_create (p : AccountSessionPool) (conv? : Option String) (api : String)
    (now : Nat) (sid fc : String) (h : ActiveInv p) :
    ActiveInv (p.create_session conv? api now sid fc).2 := by
  intro conv s hl hA
  simp only [AccountSessionPool.create_session] at hl ⊢
  by_cases hk : conv = conv?.getD fc
  · rw [hk, alLookup_alInsert_self] at hl
    injection hl with hl
    rw [← hl] at hA
    simp at hA
  · rw [alLookup_alInsert_ne conv _ hk] at hl
    exact h conv s hl hA

theorem nodup_create (p : AccountSessionPool) (conv? : Option String) (api : String)
    (now : Nat) (sid fc : String) (hn : sessionsNodup p) :
    sessionsNodup (p.create_session conv? api now sid fc).2 := by
  exact nodup_alInsert _ _ _ hn

theorem activeInv_getOrCreate (p : AccountSessionPool) (conv? : Option String)
    (api : String) (now : Nat) (sid fc : String) (h : ActiveInv p) :
    ActiveInv (p.get_or_create_session conv? api now sid fc).2 := by
  rcases conv? with _ | c
  · exact activeInv_create p none api now sid fc h
  · cases hl0 : alLookup c p.sessions with
    | none =>
      simp only [AccountSessionPool.get_or_create_session, hl0]
      exact activeInv_create p (some c) api now sid fc h
    | some s0 =>
      by_cases hexp : s0.state = SessionState.Expired
      · simp only [AccountSessionPool.get_or_create_session, hl0, hexp, ne_eq,
          not_true_eq_false, if_false]
        exact activeInv_create p (some c) api now sid fc h
      · simp only [AccountSessionPool.get_or_create_session, hl0, ne_eq, hexp,
          not_false_eq_true, if_true]
        intro conv s hl hA
        by_cases hk : conv = c
        · subst hk
          rw [alLookup_alUpdate_self, hl0] at hl
          injection hl with hl
          rw [← hl] at hA
          exact h conv s0 hl0 hA
        · rw [alLookup_alUpdate_ne conv c hk] at hl
          exact h conv s hl hA

theorem nodup_getOrCreate (p : AccountSessionPool) (conv? : Option String)
    (api : String) (now : Nat) (sid fc : String) (hn : sessionsNodup p) :
    sessionsNodup (p.get_or_create_session conv? api now sid fc).2 := by
  rcases conv? with _ | c
  · exact nodup_create p none api now sid fc hn
  · cases hl0 : alLookup c p.sessions with
    | none =>
      simp only [AccountSessionPool.get_or_create_session, hl0]
      exact nodup_create p (some c) api now sid fc hn
    | some s0 =>
      by_cases hexp : s0.state = SessionState.Expired
      · simp only [AccountSessionPool.get_or_create_session, hl0, hexp, ne_eq,
          not_true_eq_false, if_false]
        exact nodup_create p (some c) api now sid fc hn
      · simp only [AccountSessionPool.get_or_create_session, hl0, ne_eq, hexp,
          not_false_eq_true, if_true]
        simpa [sessionsNodup, alKeys_alUpdate] using hn

theorem activate_ok_char (p p' : AccountSessionPool) (conv : String) (now : Nat)
    (he : p.activate_session conv now = .ok p') :
    p' = { p with
            sessions := alUpdate conv
              (fun s => { s with state := SessionState.Active }) p.sessions
            active_session := some conv
            last_activity := now } ∧
    (p.active_session = none ∨ p.active_session = some conv) := by
  unfold AccountSessionPool.activate_session at he
  cases hl0 : alLookup conv p.sessions with
  | none => simp [hl0] at he
  | some s0 =>
    cases ha : p.active_session with
    | none =>
      simp only [hl0, ha, Except.ok.injEq] at he
      exact ⟨he.symm, Or.inl rfl⟩
    | some a =>
      by_cases haq : a = conv
      · subst haq
        simp only [hl0, ha, ne_eq, not_true_eq_false, if_false, Except.ok.injEq] at he
        exact ⟨he.symm, Or.inr rfl⟩
      · simp [hl0, ha, haq] at he

theorem activeInv_activate (p p' : AccountSessionPool) (conv : String) (now : Nat)
    (he : p.activate_session conv now = .ok p') (h : ActiveInv p) : ActiveInv p' := by
  obtain ⟨hp', hact⟩ := activate_ok_char p p' conv now he
  subst hp'
  intro c s hl hA
  by_cases hk : c = conv
  · rw [hk]
  · rw [show alLookup c (alUpdate conv
        (fun s => { s with state := SessionState.Active }) p.sessions) =
        alLookup c p.sessions from alLookup_alUpdate_ne c conv hk _ p.sessions] at hl
    have := h c s hl hA
    rcases hact with ha | ha
    · rw [ha] at this; cases this
    · rw [ha] at this
      injection this with this
      exact absurd this.symm hk

theorem nodup_activate (p p' : AccountSessionPool) (conv : String) (now : Nat)
    (he : p.activate_session conv now = .ok p') (hn : sessionsNodup p) :
    sessionsNodup p' := by
  obtain ⟨hp', _⟩ := activate_ok_char p p' conv now he
  subst hp'
  simpa [sessionsNodup, alKeys_alUpdate] using hn

theorem activeInv_release (p : AccountSessionPool) (conv : String) (h : ActiveInv p) :
    ActiveInv (p.release_session conv) := by
  intro c s hl hA
  simp only [AccountSessionPool.release_session] at hl ⊢
  by_cases hk : c = conv
  · rw [hk, alLookup_alUpdate_self] at hl
    cases hl0 : alLookup conv p.sessions with
    | none => rw [hl0] at hl; cases hl
    | some s0 =>
      rw [hl0] at hl
      injection hl with hl
      rw [← hl] at hA
      simp at hA
  · rw [alLookup_alUpdate_ne c conv hk] at hl
    have := h c s hl hA
    rw [this]
    have hne : (some c : Option String) ≠ some conv := by
      intro hh; exact hk (by injection hh)
    simp [hne]

theorem nodup_release (p : AccountSessionPool) (conv : String) (hn : sessionsNodup p) :
    sessionsNodup (p.release_session conv) := by
  simpa [sessionsNodup, AccountSessionPool.release_session, alKeys_alUpdate] using hn

theorem activeInv_cleanup (p : AccountSessionPool) (now timeout : Nat)
    (h : ActiveInv p) (hn : sessionsNodup p) :
    ActiveInv (p.cleanup_expired_sessions now timeout).2 := by
  intro conv s hl hA
  have hmem : (conv, s) ∈ AccountSessionPool.retainLive now timeout p.sessions :=
    alLookup_mem _ conv s hl
  have hnexp : ¬ AccountSessionPool.sessionExpired now timeout s :=
    mem_retainLive_not_expired now timeout p.sessions (conv, s) hmem
  have hmem0 : (conv, s) ∈ p.sessions := (retainLive_sublist now timeout p.sessions).subset hmem
  have hl0 : alLookup conv p.sessions = some s := mem_alLookup p.sessions conv s hn hmem0
  have hactive := h conv s hl0 hA
  show (match p.active_session with
    | some active_id =>
      match alLookup active_id p.sessions with
      | some s1 =>
        if AccountSessionPool.sessionExpired now timeout s1 then none else some active_id
      | none => some active_id
    | none => none) = some conv
  rw [hactive]
  simp [hl0, hnexp]

theorem nodup_cleanup (p : AccountSessionPool) (now timeout : Nat)
    (hn : sessionsNodup p) : sessionsNodup (p.cleanup_expired_sessions now timeout).2 := by
  show (alKeys (AccountSessionPool.retainLive now timeout p.sessions)).Nodup
  exact hn.sublist ((retainLive_sublist now timeout p.sessions).map Prod.fst)

/-- C2: for every state of an account pool reachable by any sequence of
create_session, get_or_create_session, activate_session,
release_session and cleanup_expired_sessions, every session in state
Active is the one named by active_session, and hence at most one
session of the account's map is Active at a time. -/
theorem c2_at_most_one_active (p : AccountSessionPool) (h : Reachable p) :
    ActiveInv p ∧
    (∀ c1 s1 c2 s2, alLookup c1 p.sessions = some s1 →
      s1.state = SessionState.Active → alLookup c2 p.sessions = some s2 →
      s2.state = SessionState.Active → c1 = c2) := by
  have main : ActiveInv p ∧ sessionsNodup p := by
    induction h with
    | init e t now =>
      refine ⟨?_, ?_⟩
      · intro conv s hl _
        simp [AccountSessionPool.new, alLookup] at hl
      · simp [sessionsNodup, AccountSessionPool.new, alKeys]
    | create q conv? api now sid fc _ ih =>
      exact ⟨activeInv_create q conv? api now sid fc ih.1,
        nodup_create q conv? api now sid fc ih.2⟩
    | getOrCreate q conv? api now sid fc _ ih =>
      exact ⟨activeInv_getOrCreate q conv? api now sid fc ih.1,
        nodup_getOrCreate q conv? api now sid fc ih.2⟩
    | activate q q' conv now _ he ih =>
      exact ⟨activeInv_activate q q' conv now he ih.1, nodup_activate q q' conv now he ih.2⟩
    | rel q conv _ ih =>
      exact ⟨activeInv_release q conv ih.1, nodup_release q conv ih.2⟩
    | cleanup q now timeout _ ih =>
      exact ⟨activeInv_cleanup q now timeout ih.1 ih.2, nodup_cleanup q now timeout ih.2⟩
  refine ⟨main.1, ?_⟩
  intro c1 s1 c2 s2 h1 hA1 h2 hA2
  have e1 := main.1 c1 s1 h1 hA1
  have e2 := main.1 c2 s2 h2 hA2
  rw [e1] at e2
  injection e2

/-- C2 witness: the invariant instantiated at a concrete reachable
state, reached by creating a session on a fresh pool. -/
theorem c2_at_most_one_active_witness :
    ActiveInv ((AccountSessionPool.new "e" "t" 0).create_session
      (some "c") "k" 1 "s" "f").2 :=
  (c2_at_most_one_active _
    (Reachable.create _ (some "c") "k" 1 "s" "f" (Reachable.init "e" "t" 0))).1
